import Mathlib

/-!
Verification of the blazevm core (class-file decoder, class manager and
interpreter) against its natural-language specification.  The Rust sources
are shallowly embedded: machine integers become `Int` with explicit
wrap-around where the compiled code wraps, Rust panics become the `none`
case of an `Option` wrapper (a panic aborts the interpreter process and is
distinct from a returned `Err`), and fallible functions return `Except`.
Error payload strings of the source are elided (they never influence
control flow).
-/

deriving instance DecidableEq for Except

namespace BlazeVM

/-! ## Machine integers -/

/-- Two's-complement wrap of an integer into the signed 32-bit range,
modelling what the compiled Rust arithmetic does on overflow. -/
def wrapI32 (v : Int) : Int :=
  (v + 2 ^ 31) % 2 ^ 32 - 2 ^ 31

/-- Two's-complement wrap into the signed 64-bit range. -/
def wrapI64 (v : Int) : Int :=
  (v + 2 ^ 63) % 2 ^ 64 - 2 ^ 63

/-- Rust `as usize` cast of a signed 32-bit value on a 64-bit target:
the value is sign extended and reinterpreted modulo two to the 64. -/
def usizeOfI32 (v : Int) : Nat :=
  (v % 2 ^ 64).toNat

/-- Rust division on `i32`: truncated division, with a panic (modelled as
`none`) when the divisor is zero or on `MIN / -1` overflow. -/
def rustDivI32 (a b : Int) : Option Int :=
  if b = 0 then none
  else
    let q := Int.tdiv a b
    if q < -(2 ^ 31) ∨ 2 ^ 31 - 1 < q then none else some q

/-- Rust remainder on `i32`: truncated remainder, panicking on a zero
divisor or on `MIN % -1` overflow. -/
def rustRemI32 (a b : Int) : Option Int :=
  if b = 0 then none
  else
    let q := Int.tdiv a b
    if q < -(2 ^ 31) ∨ 2 ^ 31 - 1 < q then none else some (a - b * q)

/-- Rust division on `i64`, with the same panic conditions as `i32`. -/
def rustDivI64 (a b : Int) : Option Int :=
  if b = 0 then none
  else
    let q := Int.tdiv a b
    if q < -(2 ^ 63) ∨ 2 ^ 63 - 1 < q then none else some q

/-! ## Floating point values

The interpreter stores Rust `f32` and `f64` values and only ever combines
them with IEEE-754 arithmetic and comparisons.  The claims under scrutiny
involve the classification of results (NaN, infinities) and the ordering
predicates, none of which depend on rounding, so floats are embedded as
exact rationals extended with the three special values.  The sign of a
floating zero is abstracted away (a zero is `FP.finite 0`). -/

inductive FP where
  | nan : FP
  | posInf : FP
  | negInf : FP
  | finite (q : ℚ) : FP
deriving DecidableEq, Repr

namespace FP

/-- IEEE equality test (`==` on Rust floats): NaN compares unequal to
everything, including itself. -/
def beq : FP → FP → Bool
  | nan, _ => false
  | _, nan => false
  | posInf, posInf => true
  | negInf, negInf => true
  | finite a, finite b => a = b
  | _, _ => false

/-- IEEE strict greater-than test (`>` on Rust floats): false whenever an
operand is NaN. -/
def bgt : FP → FP → Bool
  | nan, _ => false
  | _, nan => false
  | posInf, posInf => false
  | posInf, _ => true
  | _, posInf => false
  | negInf, _ => false
  | finite _, negInf => true
  | finite a, finite b => b < a

/-- IEEE division (`/` on Rust floats).  Division never panics: a zero
divisor yields an infinity by the sign rule, and zero over zero yields
NaN. -/
def div : FP → FP → FP
  | nan, _ => nan
  | _, nan => nan
  | posInf, posInf => nan
  | posInf, negInf => nan
  | negInf, posInf => nan
  | negInf, negInf => nan
  | posInf, finite b => if b < 0 then negInf else posInf
  | negInf, finite b => if b < 0 then posInf else negInf
  | finite _, posInf => finite 0
  | finite _, negInf => finite 0
  | finite a, finite b =>
      if b = 0 then
        if a = 0 then nan else if 0 < a then posInf else negInf
      else finite (a / b)

/-- IEEE addition, used by `fadd` and `dadd`. -/
def add : FP → FP → FP
  | nan, _ => nan
  | _, nan => nan
  | posInf, negInf => nan
  | negInf, posInf => nan
  | posInf, _ => posInf
  | _, posInf => posInf
  | negInf, _ => negInf
  | _, negInf => negInf
  | finite a, finite b => finite (a + b)

end FP

/-! ## Slots, frames, threads

Mirrors `vm/src/slot.rs` and `vm/src/thread.rs`.  Garbage-collected heap
references (`Gc<Object>`, `Gc<Array>`) are represented by indices into an
explicit heap carried alongside the frame where an instruction needs it. -/

/-- Runtime slot of an operand stack or local variable array
(`vm/src/slot.rs`). -/
inductive Slot where
  | tombstone : Slot
  | int (v : Int) : Slot
  | long (v : Int) : Slot
  | float (v : FP) : Slot
  | double (v : FP) : Slot
  | returnAddress (a : Nat) : Slot
  | invokationReturnAddress (a : Nat) : Slot
  | arrayReference (r : Nat) : Slot
  | objectReference (r : Nat) : Slot
  | undefinedReference : Slot
deriving DecidableEq, Repr

/-- Activation frame (`vm/src/thread.rs`).  The operand stack is a list
whose head is the top of the stack (the last element of the Rust `Vec`). -/
structure Frame where
  localVariables : List Slot
  operandStack : List Slot
  classId : Nat
  methodIdx : Nat
deriving DecidableEq, Repr

/-- Fresh frame as built by `Frame::new`: empty operand stack and
`varlen` tombstone local slots. -/
def Frame.new (classId methodIdx varlen : Nat) : Frame :=
  ⟨List.replicate varlen Slot.tombstone, [], classId, methodIdx⟩

/-- Interpreter thread: one shared program counter and a stack of frames,
head is the current (innermost) frame (`vm/src/thread.rs`). -/
structure Thread where
  pc : Nat
  stack : List Frame
deriving DecidableEq, Repr

/-- Errors an instruction can return (`vm/src/opcode/mod.rs`,
`InstructionError`); the textual contexts of the source are elided. -/
inductive InstructionError where
  | classLoadingError : InstructionError
  | invalidState : InstructionError
  | unimplementedInstruction : InstructionError
  | ioError : InstructionError
  | invalidOpcode : InstructionError
  | corruptedOpcode : InstructionError
deriving DecidableEq, Repr

/-- Result of a successfully executed instruction
(`vm/src/opcode/mod.rs`, `InstructionSuccess`). -/
inductive InstructionSuccess where
  | next (n : Nat) : InstructionSuccess
  | jumpRelative (offset : Int) : InstructionSuccess
  | jumpAbsolute (pc : Nat) : InstructionSuccess
  | frameChange (pc : Nat) : InstructionSuccess
  | completed : InstructionSuccess
deriving DecidableEq, Repr

/-- How the dispatch loop of `Thread::execute` (`vm/src/thread.rs when
an instruction succeeds) applies an instruction result to the program
counter.  `jumpRelative` is applied to the pc of the executed opcode
itself, which the loop has not advanced yet. -/
def Thread.applySuccess (t : Thread) (s : InstructionSuccess) : Thread :=
  match s with
  | .next n => { t with pc := t.pc + n }
  | .jumpRelative offset => { t with pc := ((t.pc : Int) + offset).toNat }
  | .jumpAbsolute pc => { t with pc := pc }
  | .frameChange pc => { t with pc := pc }
  | .completed => t

/-- Outcome of running one instruction body against a frame: `none` is a
Rust panic (process abort), `some (Except.error e)` an instruction error
surfaced to the thread driver, and `some (Except.ok (f, s))` the updated
frame together with the instruction result. -/
abbrev FrameResult := Option (Except InstructionError (Frame × InstructionSuccess))

/-! ## Arithmetic opcodes (`vm/src/opcode/math.rs`)

Each `x...!` macro instance pops `slot1` (top of stack) then `slot2`,
requires both to carry the same slot kind and pushes the combination.
Note the source combines `value1` (the slot popped first) with `value2`
in that written order for `div`, `rem` and the shifts, and in the order
`value2 - value1` for `sub`. -/

/-- Body of `xdiv!(idiv, Int, i32, i32)`: pops `slot1` then `slot2` and
pushes `value1 / value2` with raw Rust division. -/
def idivF (f : Frame) : FrameResult :=
  match f.operandStack with
  | .int value1 :: .int value2 :: rest =>
      match rustDivI32 value1 value2 with
      | none => none
      | some q =>
          some (.ok ({ f with operandStack := .int q :: rest }, .next 1))
  | _ :: _ :: _ => some (.error .invalidState)
  | [_] => some (.error .invalidState)
  | [] => some (.error .invalidState)

/-- Body of `xdiv!(ldiv, Long, i64, i64)`. -/
def ldivF (f : Frame) : FrameResult :=
  match f.operandStack with
  | .long value1 :: .long value2 :: rest =>
      match rustDivI64 value1 value2 with
      | none => none
      | some q =>
          some (.ok ({ f with operandStack := .long q :: rest }, .next 1))
  | _ :: _ :: _ => some (.error .invalidState)
  | [_] => some (.error .invalidState)
  | [] => some (.error .invalidState)

/-- Body of `xrem!(irem, Int, i32, i32)`: pushes `value1 % value2` with
raw Rust remainder. -/
def iremF (f : Frame) : FrameResult :=
  match f.operandStack with
  | .int value1 :: .int value2 :: rest =>
      match rustRemI32 value1 value2 with
      | none => none
      | some q =>
          some (.ok ({ f with operandStack := .int q :: rest }, .next 1))
  | _ :: _ :: _ => some (.error .invalidState)
  | [_] => some (.error .invalidState)
  | [] => some (.error .invalidState)

/-- Rust remainder on `i64`. -/
def rustRemI64 (a b : Int) : Option Int :=
  if b = 0 then none
  else
    let q := Int.tdiv a b
    if q < -(2 ^ 63) ∨ 2 ^ 63 - 1 < q then none else some (a - b * q)

/-- Body of `xrem!(lrem, Long, i64, i64)`. -/
def lremF (f : Frame) : FrameResult :=
  match f.operandStack with
  | .long value1 :: .long value2 :: rest =>
      match rustRemI64 value1 value2 with
      | none => none
      | some q =>
          some (.ok ({ f with operandStack := .long q :: rest }, .next 1))
  | _ :: _ :: _ => some (.error .invalidState)
  | [_] => some (.error .invalidState)
  | [] => some (.error .invalidState)

/-- Body of `xdiv!(fdiv, Float, f32, f32)`: IEEE division of `value1` by
`value2`, never panicking. -/
def fdivF (f : Frame) : FrameResult :=
  match f.operandStack with
  | .float value1 :: .float value2 :: rest =>
      some (.ok ({ f with operandStack := .float (value1.div value2) :: rest }, .next 1))
  | _ :: _ :: _ => some (.error .invalidState)
  | [_] => some (.error .invalidState)
  | [] => some (.error .invalidState)

/-- Body of `xdiv!(ddiv, Double, f64, f64)`. -/
def ddivF (f : Frame) : FrameResult :=
  match f.operandStack with
  | .double value1 :: .double value2 :: rest =>
      some (.ok ({ f with operandStack := .double (value1.div value2) :: rest }, .next 1))
  | _ :: _ :: _ => some (.error .invalidState)
  | [_] => some (.error .invalidState)
  | [] => some (.error .invalidState)

/-- Body of `xadd!(iadd, Int, i32, i32)`: `value1 + value2`, wrapping as
the release-profile Rust addition does. -/
def iaddF (f : Frame) : FrameResult :=
  match f.operandStack with
  | .int value1 :: .int value2 :: rest =>
      some (.ok ({ f with operandStack := .int (wrapI32 (value1 + value2)) :: rest }, .next 1))
  | _ :: _ :: _ => some (.error .invalidState)
  | [_] => some (.error .invalidState)
  | [] => some (.error .invalidState)

/-- Body of `xsub!(isub, Int, i32, i32)`: pushes `value2 - value1`, the
slot popped second minus the slot popped first. -/
def isubF (f : Frame) : FrameResult :=
  match f.operandStack with
  | .int value1 :: .int value2 :: rest =>
      some (.ok ({ f with operandStack := .int (wrapI32 (value2 - value1)) :: rest }, .next 1))
  | _ :: _ :: _ => some (.error .invalidState)
  | [_] => some (.error .invalidState)
  | [] => some (.error .invalidState)

/-- Body of `xmul!(imul, Int, i32, i32)`. -/
def imulF (f : Frame) : FrameResult :=
  match f.operandStack with
  | .int value1 :: .int value2 :: rest =>
      some (.ok ({ f with operandStack := .int (wrapI32 (value1 * value2)) :: rest }, .next 1))
  | _ :: _ :: _ => some (.error .invalidState)
  | [_] => some (.error .invalidState)
  | [] => some (.error .invalidState)

/-- Body of `xneg1!(ineg, Int)`: pushes the wrapped negation. -/
def inegF (f : Frame) : FrameResult :=
  match f.operandStack with
  | .int value :: rest =>
      some (.ok ({ f with operandStack := .int (wrapI32 (-value)) :: rest }, .next 1))
  | _ :: _ => some (.error .invalidState)
  | [] => some (.error .invalidState)

/-! ## Shift opcodes (`vm/src/opcode/math.rs`, `xshl!` and `xshr!`)

Both macros pop `slot1` (top) then `slot2`, require the two slots to
carry the macro kind, and push `value1 << (value2 & 0x1f)` respectively
`value1 >> (value2 & 0x1f)`.  The `0x1f` mask is shared even by the long
instantiations. -/

/-- Body of `xshl!(ishl, Int)`: pushes
`value1 << (value2 & 0x1f)` wrapped to 32 bits. -/
def ishlF (f : Frame) : FrameResult :=
  match f.operandStack with
  | .int value1 :: .int value2 :: rest =>
      let n : Nat := ((value2 % 2 ^ 32).toNat).land 0x1f
      some (.ok ({ f with operandStack := Slot.int (wrapI32 (value1 * 2 ^ n)) :: rest }, .next 1))
  | _ :: _ :: _ => some (.error .invalidState)
  | [_] => some (.error .invalidState)
  | [] => some (.error .invalidState)

/-- Body of `xshl!(lshl, Long)`: both slots must be longs, and the shift
amount is still masked with `0x1f`. -/
def lshlF (f : Frame) : FrameResult :=
  match f.operandStack with
  | .long value1 :: .long value2 :: rest =>
      let n : Nat := ((value2 % 2 ^ 64).toNat).land 0x1f
      some (.ok ({ f with operandStack := Slot.long (wrapI64 (value1 * 2 ^ n)) :: rest }, .next 1))
  | _ :: _ :: _ => some (.error .invalidState)
  | [_] => some (.error .invalidState)
  | [] => some (.error .invalidState)

/-- Body of `xshr!(ishr, Int)`: arithmetic right shift of `value1` by
`value2 & 0x1f`. -/
def ishrF (f : Frame) : FrameResult :=
  match f.operandStack with
  | .int value1 :: .int value2 :: rest =>
      let n : Nat := ((value2 % 2 ^ 32).toNat).land 0x1f
      some (.ok ({ f with operandStack := Slot.int (Int.fdiv value1 (2 ^ n)) :: rest }, .next 1))
  | _ :: _ :: _ => some (.error .invalidState)
  | [_] => some (.error .invalidState)
  | [] => some (.error .invalidState)

/-- Body of `xshr!(lshr, Long)`: the shift amount mask is `0x1f` here as
well. -/
def lshrF (f : Frame) : FrameResult :=
  match f.operandStack with
  | .long value1 :: .long value2 :: rest =>
      let n : Nat := ((value2 % 2 ^ 64).toNat).land 0x1f
      some (.ok ({ f with operandStack := Slot.long (Int.fdiv value1 (2 ^ n)) :: rest }, .next 1))
  | _ :: _ :: _ => some (.error .invalidState)
  | [_] => some (.error .invalidState)
  | [] => some (.error .invalidState)

/-- Fragment of the shift opcodes reachable from `Opcode::execute`
(`vm/src/opcode/mod.rs`).  `IUshr` and `LUshr` have no dispatch arm and
fall to the catch-all that returns `UnimplementedInstruction`. -/
inductive ShiftOp where
  | ishl : ShiftOp
  | lshl : ShiftOp
  | ishr : ShiftOp
  | lshr : ShiftOp
  | iushr : ShiftOp
  | lushr : ShiftOp
deriving DecidableEq, Repr

/-- Dispatch of the shift opcodes per `Opcode::execute`. -/
def execShift (op : ShiftOp) (f : Frame) : FrameResult :=
  match op with
  | .ishl => ishlF f
  | .lshl => lshlF f
  | .ishr => ishrF f
  | .lshr => lshrF f
  | .iushr => some (.error .unimplementedInstruction)
  | .lushr => some (.error .unimplementedInstruction)

/-! ## Comparison opcodes (`vm/src/opcode/comparison.rs`)

The four float comparisons pop `value2` (top of stack) first, then
`value1`; both pops are `unwrap`ed, so an underflow panics.  The NaN test
of the source is written `value1 == f32::NAN || value2 == f32::NAN`,
an IEEE equality against NaN. -/

/-- Body of `fcmpl`. -/
def fcmplF (f : Frame) : FrameResult :=
  match f.operandStack with
  | .float value2 :: .float value1 :: rest =>
      let result : Int :=
        if value1.beq FP.nan || value2.beq FP.nan then -1
        else if value1.bgt value2 then 1
        else if value1.beq value2 then 0
        else -1
      some (.ok ({ f with operandStack := Slot.int result :: rest }, .next 1))
  | _ :: _ :: _ => some (.error .invalidState)
  | [_] => none
  | [] => none

/-- Body of `fcmpg`; its doc comment in the source states that 1 is
pushed if either value is NaN. -/
def fcmpgF (f : Frame) : FrameResult :=
  match f.operandStack with
  | .float value2 :: .float value1 :: rest =>
      let result : Int :=
        if value1.beq FP.nan || value2.beq FP.nan then 1
        else if value1.bgt value2 then 1
        else if value1.beq value2 then 0
        else -1
      some (.ok ({ f with operandStack := Slot.int result :: rest }, .next 1))
  | _ :: _ :: _ => some (.error .invalidState)
  | [_] => none
  | [] => none

/-- Body of `dcmpl`. -/
def dcmplF (f : Frame) : FrameResult :=
  match f.operandStack with
  | .double value2 :: .double value1 :: rest =>
      let result : Int :=
        if value1.beq FP.nan || value2.beq FP.nan then -1
        else if value1.bgt value2 then 1
        else if value1.beq value2 then 0
        else -1
      some (.ok ({ f with operandStack := Slot.int result :: rest }, .next 1))
  | _ :: _ :: _ => some (.error .invalidState)
  | [_] => none
  | [] => none

/-- Body of `dcmpg`. -/
def dcmpgF (f : Frame) : FrameResult :=
  match f.operandStack with
  | .double value2 :: .double value1 :: rest =>
      let result : Int :=
        if value1.beq FP.nan || value2.beq FP.nan then 1
        else if value1.bgt value2 then 1
        else if value1.beq value2 then 0
        else -1
      some (.ok ({ f with operandStack := Slot.int result :: rest }, .next 1))
  | _ :: _ :: _ => some (.error .invalidState)
  | [_] => none
  | [] => none

/-! ## Switch opcodes (`runner/src/opcode/control.rs`)

The switch payloads are decoded by `read_instruction`
(`vm/src/opcode/mod.rs`), which guarantees
`jump_offsets.len() = high - low + 1` and `match_offsets.len() = npairs`. -/

/-- Payload of a decoded `tableswitch` (`vm/src/opcode/mod.rs`). -/
structure TableSwitch where
  default : Int
  low : Int
  high : Int
  jumpOffsets : List Int
deriving DecidableEq, Repr

/-- Payload of a decoded `lookupswitch`. -/
structure LookupSwitch where
  default : Int
  matchOffsets : List (Int × Int)
deriving DecidableEq, Repr

/-- Model of the Rust standard library `slice::binary_search_by_key`
used by `lookupswitch`, by its documented contract: on a slice sorted by
the key it returns `Ok` of an index holding the key exactly when the key
occurs.  (The class-file format requires `lookupswitch` tables to be
sorted ascending.) -/
def binarySearchByKey (l : List (Int × Int)) (key : Int) : Option Nat :=
  l.findIdx? (fun p => p.1 == key)

/-- Body of `tableswitch`: pops the index (`unwrap`ed pop), takes the
default offset outside `[low, high]` and `jump_offsets[index - low]`
inside, and asks for a jump relative to the current pc. -/
def tableswitchF (table : TableSwitch) (f : Frame) : FrameResult :=
  match f.operandStack with
  | [] => none
  | index :: rest =>
      match index with
      | .int idx =>
          if idx < table.low || table.high < idx then
            some (.ok ({ f with operandStack := rest }, .jumpRelative table.default))
          else
            match table.jumpOffsets.get? (usizeOfI32 (wrapI32 (idx - table.low))) with
            | none => none
            | some offset =>
                some (.ok ({ f with operandStack := rest }, .jumpRelative offset))
      | _ => some (.error .invalidState)

/-- Body of `lookupswitch`: pops the key, binary searches the pair table
and jumps by the matching offset, or by the default offset when the key
is absent. -/
def lookupswitchF (table : LookupSwitch) (f : Frame) : FrameResult :=
  match f.operandStack with
  | [] => none
  | key :: rest =>
      match key with
      | .int k =>
          match binarySearchByKey table.matchOffsets k with
          | some index =>
              match table.matchOffsets.get? index with
              | none => none
              | some pr =>
                  some (.ok ({ f with operandStack := rest }, .jumpRelative pr.2))
          | none =>
              some (.ok ({ f with operandStack := rest }, .jumpRelative table.default))
      | _ => some (.error .invalidState)

/-! ## Return opcodes (`runner/src/opcode/control.rs`)

These operate on the whole thread: they pop the callee frame and consume
the `InvokationReturnAddress` stashed on the invoker operand stack. -/

/-- Outcome of a thread-level instruction body. -/
abbrev ThreadResult := Option (Except InstructionError (Thread × InstructionSuccess))

/-- Slot kinds distinguished by the `xreturn!` macro instantiations. -/
inductive PrimTy where
  | int : PrimTy
  | long : PrimTy
  | float : PrimTy
  | double : PrimTy
deriving DecidableEq, Repr

/-- Test of the `Slot::$ty(value)` pattern of `xreturn!`. -/
def PrimTy.matches : PrimTy → Slot → Bool
  | .int, .int _ => true
  | .long, .long _ => true
  | .float, .float _ => true
  | .double, .double _ => true
  | _, _ => false

/-- Body of the `xreturn!` macro (`ireturn`, `lreturn`, `freturn`,
`dreturn`): pops the callee frame (`unwrap`ed), reads the returned value
from the top of the popped operand stack, pops the
`InvokationReturnAddress` from the invoker operand stack, pushes the
value there and requests a frame change to the stashed pc. -/
def xreturnF (ty : PrimTy) (t : Thread) : ThreadResult :=
  match t.stack with
  | [] => none
  | prevFrame :: rest =>
      match prevFrame.operandStack with
      | value :: _ =>
          if ty.matches value then
            match rest with
            | [] => none
            | frame :: rest2 =>
                match frame.operandStack with
                | .invokationReturnAddress pc :: frest =>
                    some (.ok
                      ({ t with stack := { frame with operandStack := value :: frest } :: rest2 },
                       .frameChange pc))
                | _ => some (.error .invalidState)
          else some (.error .invalidState)
      | [] => some (.error .invalidState)

/-- Body of `vreturn` (the `return` opcode): pops the callee frame; when
an invoker remains it consumes the `InvokationReturnAddress` and requests
a frame change there, otherwise the thread is completed. -/
def vreturnF (t : Thread) : ThreadResult :=
  match t.stack with
  | [] => some (.ok ({ t with stack := [] }, .completed))
  | _ :: rest =>
      match rest with
      | [] => some (.ok ({ t with stack := [] }, .completed))
      | frame :: rest2 =>
          match frame.operandStack with
          | .invokationReturnAddress pc :: frest =>
              some (.ok
                ({ t with stack := { frame with operandStack := frest } :: rest2 },
                 .frameChange pc))
          | _ => some (.error .invalidState)

/-! ## Invocation (`vm/src/opcode/reference.rs`)

The four `invoke*` opcodes share a shape: resolve the target out of the
constant pool, pop the declared arguments one by one (right-to-left,
since each pop takes the top of the stack), pop the receiver for the
non-static forms, and hand over to the `invoke` helper.  The symbolic
resolution consults the class manager; it is parameterized here by its
outcome (target class id, method index, argument count, max locals and
whether the method is native). -/

/-- Argument-popping loop of `invokestatic`: each pop is `unwrap`ed, so
an operand-stack underflow panics. -/
def popArgsUnwrap : Nat → List Slot → List Slot → Option (List Slot × List Slot)
  | 0, acc, stack => some (acc, stack)
  | _ + 1, _, [] => none
  | n + 1, acc, s :: rest => popArgsUnwrap n (acc ++ [s]) rest

/-- Argument-popping loop of `invokespecial`, `invokevirtual` and
`invokeinterface`: an underflow is an `InvalidState` error. -/
def popArgsChecked : Nat → List Slot → List Slot →
    Except InstructionError (List Slot × List Slot)
  | 0, acc, stack => .ok (acc, stack)
  | _ + 1, _, [] => .error .invalidState
  | n + 1, acc, s :: rest => popArgsChecked n (acc ++ [s]) rest

/-- Rust write `frame.local_variables[i] = v`: panics out of bounds. -/
def setLocal (l : List Slot) (i : Nat) (v : Slot) : Option (List Slot) :=
  if i < l.length then some (l.set i v) else none

/-- Argument-layout loop of the `invoke` helper: arguments go into the
local variables in order, category-2 slots taking two cells with a
trailing tombstone; a tombstone or invokation-return argument hits the
`panic!` arm of the source. -/
def storeArgs : List Slot → List Slot → Nat → Option (List Slot)
  | [], locals, _ => some locals
  | a :: rest, locals, pos =>
      match a with
      | .int _ | .float _ | .undefinedReference | .arrayReference _
      | .objectReference _ | .returnAddress _ =>
          match setLocal locals pos a with
          | none => none
          | some l2 => storeArgs rest l2 (pos + 1)
      | .long _ | .double _ =>
          match setLocal locals pos a with
          | none => none
          | some l2 =>
              match setLocal l2 (pos + 1) Slot.tombstone with
              | none => none
              | some l3 => storeArgs rest l3 (pos + 2)
      | .tombstone | .invokationReturnAddress _ => none

/-- The `invoke` helper (`vm/src/opcode/reference.rs`): for a native
method it only skips ahead; otherwise it pushes
`InvokationReturnAddress(pc + next_instruction)` onto the invoker
operand stack, pushes a fresh frame with `max_locals` tombstone locals,
lays the arguments into its locals and requests a frame change to pc 0. -/
def invokeHelper (t : Thread) (classId methodIdx : Nat) (isNative : Bool)
    (maxLocals : Nat) (args : List Slot) (nextInstruction : Nat) : ThreadResult :=
  if isNative then some (.ok (t, .next nextInstruction))
  else
    match t.stack with
    | [] => none
    | cur :: rest =>
        let oldPc := t.pc + nextInstruction
        let cur2 := { cur with operandStack := Slot.invokationReturnAddress oldPc :: cur.operandStack }
        match storeArgs args (List.replicate maxLocals Slot.tombstone) 0 with
        | none => none
        | some locals =>
            let newFrame : Frame := ⟨locals, [], classId, methodIdx⟩
            some (.ok ({ t with stack := newFrame :: cur2 :: rest }, .frameChange 0))

/-- Shared argument-and-receiver handling of the `invoke*` opcodes,
after symbolic resolution: `invokestatic` pops `argc` arguments; the
non-static forms additionally pop the receiver, which must be a non-null
object reference, append it and reverse, so the callee sees the receiver
followed by the arguments in declaration order. -/
def invokeFamily (isStatic : Bool) (argc : Nat) (classId methodIdx : Nat)
    (isNative : Bool) (maxLocals : Nat) (width : Nat) (t : Thread) : ThreadResult :=
  match t.stack with
  | [] => none
  | frame :: rest =>
      if isStatic then
        match popArgsUnwrap argc [] frame.operandStack with
        | none => none
        | some (args, stack2) =>
            invokeHelper { t with stack := { frame with operandStack := stack2 } :: rest }
              classId methodIdx isNative maxLocals args.reverse width
      else
        match popArgsChecked argc [] frame.operandStack with
        | .error e => some (.error e)
        | .ok (args, stack2) =>
            match stack2 with
            | Slot.objectReference r :: stack3 =>
                invokeHelper { t with stack := { frame with operandStack := stack3 } :: rest }
                  classId methodIdx isNative maxLocals
                  ((args ++ [Slot.objectReference r]).reverse) width
            | Slot.undefinedReference :: _ => some (.error .invalidState)
            | _ => some (.error .invalidState)

/-- Width in local-variable cells of one argument slot. -/
def Slot.width : Slot → Nat
  | .long _ => 2
  | .double _ => 2
  | _ => 1

/-- Total number of local-variable cells taken by an argument list. -/
def slotsSize (args : List Slot) : Nat :=
  (args.map Slot.width).sum

/-- Slots that the `invoke` helper accepts as arguments (everything but
a tombstone or an invokation return address). -/
def Slot.storable : Slot → Bool
  | .tombstone => false
  | .invokationReturnAddress _ => false
  | _ => true

/-- Specification-level layout of arguments in the callee locals: each
argument in order, category-2 arguments followed by a tombstone. -/
def expandArgs (args : List Slot) : List Slot :=
  args.flatMap fun a =>
    match a with
    | .long _ => [a, Slot.tombstone]
    | .double _ => [a, Slot.tombstone]
    | _ => [a]

/-! ## Helper lemmas about the invocation protocol -/

theorem popArgsUnwrap_exact (l : List Slot) :
    ∀ acc s, popArgsUnwrap l.length acc (l ++ s) = some (acc ++ l, s) := by
  induction l with
  | nil => intro acc s; simp [popArgsUnwrap]
  | cons a l ih =>
      intro acc s
      simpa [popArgsUnwrap] using ih (acc ++ [a]) s

theorem popArgsChecked_exact (l : List Slot) :
    ∀ acc s, popArgsChecked l.length acc (l ++ s) = .ok (acc ++ l, s) := by
  induction l with
  | nil => intro acc s; simp [popArgsChecked]
  | cons a l ih =>
      intro acc s
      simpa [popArgsChecked] using ih (acc ++ [a]) s

theorem setLocal_append (pre : List Slot) (r0 : Slot) (rtail : List Slot) (v : Slot) :
    setLocal (pre ++ r0 :: rtail) pre.length v = some (pre ++ v :: rtail) := by
  unfold setLocal
  rw [if_pos (by simp)]
  congr 1
  induction pre with
  | nil => simp
  | cons a pre ih => simp [List.set, ih]

theorem storeArgs_cons_eq (a : Slot) (args : List Slot) (locals : List Slot) (pos : Nat)
    (hs : a.storable = true) :
    storeArgs (a :: args) locals pos =
      if a.width = 1 then
        match setLocal locals pos a with
        | none => none
        | some l2 => storeArgs args l2 (pos + 1)
      else
        match setLocal locals pos a with
        | none => none
        | some l2 =>
            match setLocal l2 (pos + 1) Slot.tombstone with
            | none => none
            | some l3 => storeArgs args l3 (pos + 2) := by
  cases a <;> simp [storeArgs, Slot.width, Slot.storable] at hs ⊢

theorem expandArgs_cons (a : Slot) (args : List Slot) :
    expandArgs (a :: args) =
      (if a.width = 1 then [a] else [a, Slot.tombstone]) ++ expandArgs args := by
  cases a <;> simp [expandArgs, Slot.width]

theorem slotsSize_cons (a : Slot) (args : List Slot) :
    slotsSize (a :: args) = a.width + slotsSize args := by
  simp [slotsSize]

theorem storeArgs_append (args : List Slot) :
    ∀ pre rest, (∀ a ∈ args, a.storable = true) → slotsSize args ≤ rest.length →
    storeArgs args (pre ++ rest) pre.length =
      some (pre ++ expandArgs args ++ rest.drop (slotsSize args)) := by
  induction args with
  | nil =>
      intro pre rest _ _
      simp [storeArgs, expandArgs, slotsSize]
  | cons a args ih =>
      intro pre rest hst hsz
      have hs : a.storable = true := hst a (List.mem_cons_self a args)
      have hst2 : ∀ x ∈ args, x.storable = true := fun x hx => hst x (List.mem_cons_of_mem a hx)
      rw [storeArgs_cons_eq a args _ _ hs, expandArgs_cons]
      rw [slotsSize_cons] at hsz ⊢
      have hw : a.width = 1 ∨ a.width = 2 := by cases a <;> simp [Slot.width]
      rcases hw with hw | hw
      · rw [if_pos hw]
        cases rest with
        | nil => rw [hw] at hsz; simp at hsz
        | cons r0 rtail =>
            have hsz2 : slotsSize args ≤ rtail.length := by
              rw [hw] at hsz; simp only [List.length_cons] at hsz; omega
            simp only [setLocal_append pre r0 rtail a]
            have hrec := ih (pre ++ [a]) rtail hst2 hsz2
            simp only [List.length_append, List.length_cons, List.length_nil,
              List.append_assoc, List.singleton_append] at hrec
            rw [hrec, hw]
            simp [Nat.add_comm 1 (slotsSize args), List.drop_succ_cons, List.append_assoc]
      · rw [if_neg (by omega)]
        cases rest with
        | nil => rw [hw] at hsz; simp at hsz
        | cons r0 rtail0 =>
            cases rtail0 with
            | nil => rw [hw] at hsz; simp at hsz; omega
            | cons r1 rtail =>
                have hsz2 : slotsSize args ≤ rtail.length := by
                  rw [hw] at hsz; simp only [List.length_cons] at hsz; omega
                simp only [setLocal_append pre r0 (r1 :: rtail) a]
                have h2 : setLocal (pre ++ a :: r1 :: rtail) (pre.length + 1) Slot.tombstone =
                    some (pre ++ a :: Slot.tombstone :: rtail) := by
                  have h3 := setLocal_append (pre ++ [a]) r1 rtail Slot.tombstone
                  simpa [List.append_assoc] using h3
                simp only [h2]
                have hrec := ih (pre ++ [a, Slot.tombstone]) rtail hst2 hsz2
                simp only [List.length_append, List.length_cons, List.length_nil,
                  List.append_assoc, List.cons_append, List.nil_append] at hrec
                have hpos : pre.length + (1 + 1) = pre.length + 2 := by omega
                rw [hpos] at hrec
                rw [hrec, hw]
                have hdrop : (2 : ℕ) + slotsSize args = slotsSize args + 1 + 1 := by omega
                rw [hdrop]
                simp [List.drop_succ_cons, List.append_assoc]

theorem drop_replicate_tombstone (n k : Nat) :
    (List.replicate n Slot.tombstone).drop k = List.replicate (n - k) Slot.tombstone := by
  induction n generalizing k with
  | zero => simp
  | succ n ih =>
      cases k with
      | zero => simp
      | succ k => simp [List.replicate_succ, ih k]

/-- C1: upon an invoke-family instruction whose symbolic resolution
yields a non-native method of `argc` arguments, the interpreter pops the
arguments right-to-left (plus the receiver for the non-static forms),
pushes `InvokationReturnAddress (pc + width)` onto the invoker operand
stack, pushes a fresh frame whose locals hold the receiver (if any) and
the arguments in order with every Long/Double taking two cells followed
by a tombstone, and requests `FrameChange 0` so the dispatch loop sets
the pc to 0; and on `ireturn`-style and `return` opcodes the callee
frame is popped, the `InvokationReturnAddress` is consumed from the
invoker operand stack, the returned value (for the non-void forms) is
pushed there and the dispatch loop jumps to the stashed address. -/
theorem C1_invocation_protocol
    (isStatic : Bool) (args : List Slot) (recv : Nat) (rest : List Slot)
    (lv : List Slot) (cid0 mid0 pc : Nat) (frames : List Frame)
    (classId methodIdx maxLocals width : Nat)
    (ty : PrimTy) (v : Slot) (vs irest : List Slot)
    (calleeLv : List Slot) (cidC midC : Nat) (invoker : Frame)
    (addr pc2 : Nat) (frames2 : List Frame)
    (hstorable : ∀ a ∈ (if isStatic then args else Slot.objectReference recv :: args),
      a.storable = true)
    (hsize : slotsSize (if isStatic then args else Slot.objectReference recv :: args) ≤ maxLocals)
    (hv : ty.matches v = true)
    (hinv : invoker.operandStack = Slot.invokationReturnAddress addr :: irest) :
    (invokeFamily isStatic args.length classId methodIdx false maxLocals width
        ⟨pc, ⟨lv, args.reverse ++ (if isStatic then [] else [Slot.objectReference recv]) ++ rest,
          cid0, mid0⟩ :: frames⟩ =
      some (.ok
        (⟨pc,
          ⟨expandArgs (if isStatic then args else Slot.objectReference recv :: args) ++
              List.replicate
                (maxLocals - slotsSize (if isStatic then args else Slot.objectReference recv :: args))
                Slot.tombstone,
            [], classId, methodIdx⟩ ::
            ⟨lv, Slot.invokationReturnAddress (pc + width) :: rest, cid0, mid0⟩ :: frames⟩,
         .frameChange 0)))
    ∧ (Thread.applySuccess ⟨pc, []⟩ (.frameChange 0)).pc = 0
    ∧ (xreturnF ty ⟨pc2, ⟨calleeLv, v :: vs, cidC, midC⟩ :: invoker :: frames2⟩ =
        some (.ok
          (⟨pc2, { invoker with operandStack := v :: irest } :: frames2⟩, .frameChange addr)))
    ∧ (vreturnF ⟨pc2, ⟨calleeLv, v :: vs, cidC, midC⟩ :: invoker :: frames2⟩ =
        some (.ok
          (⟨pc2, { invoker with operandStack := irest } :: frames2⟩, .frameChange addr)))
    ∧ (Thread.applySuccess ⟨pc2, []⟩ (.frameChange addr)).pc = addr := by
  refine ⟨?_, rfl, ?_, ?_, rfl⟩
  · cases isStatic with
    | true =>
        simp only [if_true, Bool.true_eq_false] at hstorable hsize ⊢
        simp only [invokeFamily, if_true, List.nil_append, List.append_nil]
        rw [show args.length = args.reverse.length from (List.length_reverse args).symm]
        rw [popArgsUnwrap_exact args.reverse [] rest]
        simp only [invokeHelper, List.nil_append, List.reverse_reverse, if_false,
          Bool.false_eq_true]
        have hsz2 : slotsSize args ≤ (List.replicate maxLocals Slot.tombstone).length := by
          simpa using hsize
        have hsa := storeArgs_append args [] (List.replicate maxLocals Slot.tombstone)
          hstorable hsz2
        simp only [List.nil_append, List.length_nil] at hsa
        rw [hsa, drop_replicate_tombstone]
    | false =>
        simp only [if_false, Bool.false_eq_true] at hstorable hsize ⊢
        simp only [invokeFamily, if_false, Bool.false_eq_true]
        have hshape : args.reverse ++ [Slot.objectReference recv] ++ rest =
            args.reverse ++ (Slot.objectReference recv :: rest) := by
          simp
        rw [hshape]
        rw [show args.length = args.reverse.length from (List.length_reverse args).symm]
        rw [popArgsChecked_exact args.reverse [] (Slot.objectReference recv :: rest)]
        simp only [invokeHelper, List.nil_append, List.reverse_append, List.reverse_cons,
          List.reverse_nil, List.reverse_reverse, if_false, Bool.false_eq_true]
        have hsz2 : slotsSize (Slot.objectReference recv :: args) ≤
            (List.replicate maxLocals Slot.tombstone).length := by
          simpa using hsize
        have hsa := storeArgs_append (Slot.objectReference recv :: args) []
          (List.replicate maxLocals Slot.tombstone) hstorable hsz2
        simp only [List.nil_append, List.length_nil] at hsa
        simp only [List.singleton_append]
        rw [hsa, drop_replicate_tombstone]
  · simp only [xreturnF, hv, if_true, hinv]
  · simp only [vreturnF, hinv]

/-- Closed instance of the C1 theorem: `invokevirtual` of a
`(IJ)`-shaped method on receiver handle 5 with arguments `Int 7` and
`Long 3`, and the matching `ireturn`/`return` steps. -/
theorem C1_invocation_protocol_witness :
    (invokeFamily false 2 3 4 false 5 3
        ⟨10, ⟨[], [Slot.long 3, Slot.int 7, Slot.objectReference 5, Slot.int 9], 1, 2⟩ :: []⟩ =
      some (.ok
        (⟨10,
          ⟨[Slot.objectReference 5, Slot.int 7, Slot.long 3, Slot.tombstone, Slot.tombstone],
            [], 3, 4⟩ ::
            ⟨[], [Slot.invokationReturnAddress 13, Slot.int 9], 1, 2⟩ :: []⟩,
         .frameChange 0)))
    ∧ (xreturnF .int ⟨0, ⟨[], [Slot.int 42], 3, 4⟩ ::
          (⟨[], [Slot.invokationReturnAddress 13, Slot.int 9], 1, 2⟩ : Frame) :: []⟩ =
        some (.ok
          (⟨0, (⟨[], [Slot.int 42, Slot.int 9], 1, 2⟩ : Frame) :: []⟩, .frameChange 13))) := by
  have h := C1_invocation_protocol false [Slot.int 7, Slot.long 3] 5 [Slot.int 9]
    [] 1 2 10 [] 3 4 5 3 .int (Slot.int 42) [] [Slot.int 9] [] 3 4
    ⟨[], [Slot.invokationReturnAddress 13, Slot.int 9], 1, 2⟩ 13 0 []
    (by decide) (by decide) (by decide) (by decide)
  refine ⟨?_, ?_⟩
  · have h1 := h.1
    simpa using h1
  · have h3 := h.2.2.1
    simpa using h3

/-- C2: counter-evaluation.  Integer division and remainder by zero do
not surface as execution errors: the raw Rust division panics (modelled
as `none`, aborting the process) when the division the code performs has
a zero denominator, and because the code divides the slot popped first
by the slot popped second, a zero divisor on top of the stack (the JVM
operand order) instead silently produces `Int 0`.  Likewise `fdiv` with
the zero on top produces the finite value `0 / 2`, not an infinity or a
NaN. -/
theorem C2_division_by_zero_evaluation :
    idivF ⟨[], [Slot.int 0, Slot.int 0], 0, 0⟩ = none
    ∧ ldivF ⟨[], [Slot.long 0, Slot.long 0], 0, 0⟩ = none
    ∧ iremF ⟨[], [Slot.int 0, Slot.int 0], 0, 0⟩ = none
    ∧ lremF ⟨[], [Slot.long 0, Slot.long 0], 0, 0⟩ = none
    ∧ idivF ⟨[], [Slot.int 0, Slot.int 1], 0, 0⟩ =
        some (.ok (⟨[], [Slot.int 0], 0, 0⟩, .next 1))
    ∧ (∃ q : ℚ, fdivF ⟨[], [Slot.float (.finite 0), Slot.float (.finite 2)], 0, 0⟩ =
        some (.ok (⟨[], [Slot.float (.finite q)], 0, 0⟩, .next 1)))
    ∧ (∃ q : ℚ, ddivF ⟨[], [Slot.double (.finite 0), Slot.double (.finite 2)], 0, 0⟩ =
        some (.ok (⟨[], [Slot.double (.finite q)], 0, 0⟩, .next 1))) :=
  ⟨rfl, rfl, rfl, rfl, rfl, ⟨0 / 2, rfl⟩, ⟨0 / 2, rfl⟩⟩

/-- C3: counter-evaluation.  `idiv` on `Int.MIN` and `-1` does not
produce `Int.MIN`: in the JVM operand order (divisor `-1` pushed last)
the swapped-operand code computes `-1 / Int.MIN = 0`, and the division
`Int.MIN / -1` the code would perform with the operands presented the
other way around panics on overflow, aborting the process.  For
contrast, `iadd`, `isub` and `imul` do wrap (first conjunct:
`Int.MAX + 1` wraps to `Int.MIN`). -/
theorem C3_idiv_min_overflow_evaluation :
    iaddF ⟨[], [Slot.int (2 ^ 31 - 1), Slot.int 1], 0, 0⟩ =
        some (.ok (⟨[], [Slot.int (-(2 ^ 31))], 0, 0⟩, .next 1))
    ∧ idivF ⟨[], [Slot.int (-1), Slot.int (-(2 ^ 31))], 0, 0⟩ =
        some (.ok (⟨[], [Slot.int 0], 0, 0⟩, .next 1))
    ∧ idivF ⟨[], [Slot.int (-(2 ^ 31)), Slot.int (-1)], 0, 0⟩ = none := by
  refine ⟨?_, ?_, ?_⟩ <;> decide

/-- C4: counter-evaluation.  The shift amount of `lshl` is masked with
`0x1f`, not `0x3f`, and it is the operand popped second, applied to the
value popped first: with `Long 1` pushed then `Long 32` on top, the
claim predicts `1 << 32 = 4294967296` but the code computes
`32 << (1 & 0x1f) = 64`.  Similarly `ishl` with `Int 1` then `Int 3` on
top yields `3 << 1 = 6` where the claim predicts `1 << 3 = 8`.
`iushr` and `lushr` have no dispatch arm at all and fail as
unimplemented instructions. -/
theorem C4_shift_mask_evaluation :
    lshlF ⟨[], [Slot.long 32, Slot.long 1], 0, 0⟩ =
        some (.ok (⟨[], [Slot.long 64], 0, 0⟩, .next 1))
    ∧ ishlF ⟨[], [Slot.int 3, Slot.int 1], 0, 0⟩ =
        some (.ok (⟨[], [Slot.int 6], 0, 0⟩, .next 1))
    ∧ execShift .iushr ⟨[], [Slot.int 1, Slot.int 1], 0, 0⟩ =
        some (.error .unimplementedInstruction)
    ∧ execShift .lushr ⟨[], [Slot.long 1, Slot.long 1], 0, 0⟩ =
        some (.error .unimplementedInstruction) := by
  refine ⟨?_, ?_, rfl, rfl⟩ <;> decide

/-- C5: counter-evaluation.  The NaN test of the comparison opcodes is
written as an IEEE equality against NaN, which is always false, so with
a NaN operand `fcmpg` and `dcmpg` fall through the ordered branches and
push `Int (-1)` where the claim (and the doc comment of the source)
requires `Int 1`.  The last two conjuncts show the ordered (non-NaN)
behavior of `fcmpg` is as claimed. -/
theorem C5_fcmpg_nan_evaluation :
    fcmpgF ⟨[], [Slot.float .nan, Slot.float (.finite 0)], 0, 0⟩ =
        some (.ok (⟨[], [Slot.int (-1)], 0, 0⟩, .next 1))
    ∧ dcmpgF ⟨[], [Slot.double .nan, Slot.double (.finite 0)], 0, 0⟩ =
        some (.ok (⟨[], [Slot.int (-1)], 0, 0⟩, .next 1))
    ∧ fcmpgF ⟨[], [Slot.float (.finite 1), Slot.float (.finite 2)], 0, 0⟩ =
        some (.ok (⟨[], [Slot.int 1], 0, 0⟩, .next 1))
    ∧ fcmplF ⟨[], [Slot.float (.finite 2), Slot.float (.finite 1)], 0, 0⟩ =
        some (.ok (⟨[], [Slot.int (-1)], 0, 0⟩, .next 1)) := by
  refine ⟨?_, ?_, ?_, ?_⟩ <;> decide

/-- One turn of the dispatch loop of `Thread::execute` for a
frame-local instruction: run the body against the current frame and
apply the result to the program counter, which has not been advanced
past the opcode being executed. -/
def stepFrameInstr (t : Thread) (run : Frame → FrameResult) :
    Option (Except InstructionError Thread) :=
  match t.stack with
  | [] => none
  | f :: fs =>
      match run f with
      | none => none
      | some (.error e) => some (.error e)
      | some (.ok (f2, s)) => some (.ok (Thread.applySuccess { t with stack := f2 :: fs } s))

theorem wrapI32_eq_self (v : Int) (h1 : -(2 ^ 31) ≤ v) (h2 : v < 2 ^ 31) :
    wrapI32 v = v := by
  unfold wrapI32
  omega

theorem usizeOfI32_eq_toNat (v : Int) (h1 : 0 ≤ v) (h2 : v < 2 ^ 64) :
    usizeOfI32 v = v.toNat := by
  unfold usizeOfI32
  omega

theorem findIdxQ_of_sorted_mem (l : List (Int × Int)) (k off : Int)
    (hsorted : l.Pairwise (fun p q => p.1 < q.1)) (hmem : (k, off) ∈ l) :
    ∃ i, l.findIdx? (fun p => p.1 == k) = some i ∧ l.get? i = some (k, off) := by
  induction l with
  | nil => cases hmem
  | cons a l ih =>
      rcases List.pairwise_cons.mp hsorted with ⟨hlt, htail⟩
      rcases List.mem_cons.mp hmem with hmem | hmem
      · refine ⟨0, ?_, ?_⟩
        · simp [List.findIdx?_cons, hmem.symm]
        · simp [hmem.symm]
      · have hne : a.1 ≠ k := by
          have := hlt (k, off) hmem
          omega
        rcases ih htail hmem with ⟨i, hfind, hget⟩
        refine ⟨i + 1, ?_, ?_⟩
        · simp [List.findIdx?_cons, hne, hfind]
        · simpa using hget

theorem findIdxQ_of_not_mem (l : List (Int × Int)) (k : Int)
    (habs : ∀ p ∈ l, p.1 ≠ k) :
    l.findIdx? (fun p => p.1 == k) = none := by
  induction l with
  | nil => simp
  | cons a l ih =>
      have hne : a.1 ≠ k := habs a (List.mem_cons_self a l)
      have ih2 := ih fun p hp => habs p (List.mem_cons_of_mem a hp)
      simp [List.findIdx?_cons, hne, ih2]

/-- C6: `tableswitch` takes the default offset for an index outside
`[low, high]` and the offset `jump_offsets[index - low]` inside;
`lookupswitch` with a sorted key table takes the offset of a matching
entry and the default offset for every absent key; and in all four
cases the dispatch loop adds the chosen offset to the pc of the switch
opcode itself, which was not advanced before execution. -/
theorem C6_switch_semantics
    (table : TableSwitch) (ltable : LookupSwitch) (idx k koff : Int)
    (rest : List Slot) (lv : List Slot) (cid mid pc : Nat) (fs : List Frame)
    (hlen : (table.jumpOffsets.length : Int) = table.high - table.low + 1)
    (hspan : table.high - table.low < 2 ^ 31)
    (hsorted : ltable.matchOffsets.Pairwise (fun p q => p.1 < q.1)) :
    ((idx < table.low ∨ table.high < idx) →
      stepFrameInstr ⟨pc, ⟨lv, Slot.int idx :: rest, cid, mid⟩ :: fs⟩ (tableswitchF table) =
        some (.ok ⟨((pc : Int) + table.default).toNat, ⟨lv, rest, cid, mid⟩ :: fs⟩))
    ∧ (∀ off, table.low ≤ idx → idx ≤ table.high →
        table.jumpOffsets.get? (idx - table.low).toNat = some off →
        stepFrameInstr ⟨pc, ⟨lv, Slot.int idx :: rest, cid, mid⟩ :: fs⟩ (tableswitchF table) =
          some (.ok ⟨((pc : Int) + off).toNat, ⟨lv, rest, cid, mid⟩ :: fs⟩))
    ∧ ((k, koff) ∈ ltable.matchOffsets →
        stepFrameInstr ⟨pc, ⟨lv, Slot.int k :: rest, cid, mid⟩ :: fs⟩ (lookupswitchF ltable) =
          some (.ok ⟨((pc : Int) + koff).toNat, ⟨lv, rest, cid, mid⟩ :: fs⟩))
    ∧ ((∀ p ∈ ltable.matchOffsets, p.1 ≠ k) →
        stepFrameInstr ⟨pc, ⟨lv, Slot.int k :: rest, cid, mid⟩ :: fs⟩ (lookupswitchF ltable) =
          some (.ok ⟨((pc : Int) + ltable.default).toNat, ⟨lv, rest, cid, mid⟩ :: fs⟩)) := by
  refine ⟨?_, ?_, ?_, ?_⟩
  · intro hout
    have hcond : (idx < table.low || table.high < idx) = true := by
      rcases hout with h | h <;> simp [h]
    simp [stepFrameInstr, tableswitchF, hcond, Thread.applySuccess]
  · intro off hlo hhi hget
    have hcond : (idx < table.low || table.high < idx) = false := by
      simp; omega
    have hw : wrapI32 (idx - table.low) = idx - table.low :=
      wrapI32_eq_self _ (by omega) (by omega)
    have hu : usizeOfI32 (idx - table.low) = (idx - table.low).toNat :=
      usizeOfI32_eq_toNat _ (by omega) (by omega)
    rw [List.get?_eq_getElem?] at hget
    simp [stepFrameInstr, tableswitchF, hcond, hw, hu, hget, Thread.applySuccess]
  · intro hmem
    rcases findIdxQ_of_sorted_mem ltable.matchOffsets k koff hsorted hmem with ⟨i, hfind, hget⟩
    rw [List.get?_eq_getElem?] at hget
    simp [stepFrameInstr, lookupswitchF, binarySearchByKey, hfind, hget, Thread.applySuccess]
  · intro habs
    have hfind := findIdxQ_of_not_mem ltable.matchOffsets k habs
    simp [stepFrameInstr, lookupswitchF, binarySearchByKey, hfind, Thread.applySuccess]

/-- Closed instance of the C6 theorem, matching the end-to-end scenario
of the specification: a `lookupswitch` with entries 7 and 42 and a key
of 42 jumps by 14 from the switch opcode at pc 30, and a `tableswitch`
over `[1, 3]` jumps by its second entry on index 2 and by the default
on index 5. -/
theorem C6_switch_semantics_witness :
    stepFrameInstr ⟨30, ⟨[], [Slot.int 2], 0, 0⟩ :: []⟩
        (tableswitchF ⟨20, 1, 3, [8, 10, 14]⟩) =
      some (.ok ⟨40, ⟨[], [], 0, 0⟩ :: []⟩)
    ∧ stepFrameInstr ⟨30, ⟨[], [Slot.int 5], 0, 0⟩ :: []⟩
        (tableswitchF ⟨20, 1, 3, [8, 10, 14]⟩) =
      some (.ok ⟨50, ⟨[], [], 0, 0⟩ :: []⟩)
    ∧ stepFrameInstr ⟨30, ⟨[], [Slot.int 42], 0, 0⟩ :: []⟩
        (lookupswitchF ⟨20, [(7, 8), (42, 14)]⟩) =
      some (.ok ⟨44, ⟨[], [], 0, 0⟩ :: []⟩)
    ∧ stepFrameInstr ⟨30, ⟨[], [Slot.int 9], 0, 0⟩ :: []⟩
        (lookupswitchF ⟨20, [(7, 8), (42, 14)]⟩) =
      some (.ok ⟨50, ⟨[], [], 0, 0⟩ :: []⟩) := by
  have h := C6_switch_semantics ⟨20, 1, 3, [8, 10, 14]⟩ ⟨20, [(7, 8), (42, 14)]⟩
    2 42 14 [] [] 0 0 30 [] (by decide) (by decide) (by decide)
  have h5 := C6_switch_semantics ⟨20, 1, 3, [8, 10, 14]⟩ ⟨20, [(7, 8), (42, 14)]⟩
    5 9 0 [] [] 0 0 30 [] (by decide) (by decide) (by decide)
  refine ⟨?_, ?_, ?_, ?_⟩
  · have := h.2.1 10 (by decide) (by decide) (by decide)
    simpa using this
  · have := h5.1 (by decide)
    simpa using this
  · have := h.2.2.1 (by decide)
    simpa using this
  · have := h5.2.2.2 (by decide)
    simpa using this

/-! ## Arrays (`vm/src/alloc/array.rs`) and the array access opcodes

Heap cells (`Gc<Array>`) are modelled by indices into an explicit list
of arrays carried next to the frame.  `item_array!::get` returns an
`Option` (used by the loads), while `item_array!::set` indexes the
vector directly and, per its own doc comment, panics out of bounds. -/

/-- Discriminated array union (`vm/src/alloc/array.rs`, `Array`). -/
inductive Arr where
  | intArr (data : List Int) : Arr
  | longArr (data : List Int) : Arr
  | floatArr (data : List FP) : Arr
  | doubleArr (data : List FP) : Arr
  | byteArr (data : List Int) : Arr
  | boolArr (data : List Bool) : Arr
  | charArr (data : List Nat) : Arr
  | shortArr (data : List Int) : Arr
  | objArr (classId : Nat) (data : List (Option Nat)) : Arr
  | arrArr (data : List (Option Nat)) : Arr
deriving DecidableEq, Repr

/-- Body of `xaload!(iaload, Int, Int, i32)` (`vm/src/opcode/load.rs`):
pops the index then the array reference; `array.get(index as usize)`
out of bounds is surfaced as an `InvalidState` execution error. -/
def ialoadS (heap : List Arr) (f : Frame) :
    Option (Except InstructionError (Frame × InstructionSuccess)) :=
  match f.operandStack with
  | Slot.int index :: arrayref :: rest =>
      match arrayref with
      | Slot.arrayReference r =>
          match heap.get? r with
          | none => none
          | some (Arr.intArr data) =>
              match data.get? (usizeOfI32 index) with
              | none => some (.error .invalidState)
              | some v =>
                  some (.ok ({ f with operandStack := Slot.int v :: rest }, .next 1))
          | some _ => some (.error .invalidState)
      | _ => some (.error .invalidState)
  | Slot.int _ :: [] => some (.error .invalidState)
  | _ => some (.error .invalidState)

/-- Body of `xastore!(iastore, Int, Int, i32)` (`vm/src/opcode/store.rs`):
pops the value, the index and the array reference; the write goes through
`item_array!::set`, which indexes the underlying vector directly and
panics when `index as usize` is out of bounds. -/
def iastoreS (heap : List Arr) (f : Frame) :
    Option (Except InstructionError (List Arr × Frame × InstructionSuccess)) :=
  match f.operandStack with
  | [] => some (.error .invalidState)
  | value :: s1 =>
      match s1 with
      | Slot.int index :: Slot.arrayReference r :: rest =>
          match heap.get? r with
          | none => none
          | some (Arr.intArr data) =>
              match value with
              | Slot.int v =>
                  if usizeOfI32 index < data.length then
                    some (.ok
                      (heap.set r (Arr.intArr (data.set (usizeOfI32 index) v)),
                       { f with operandStack := rest }, .next 1))
                  else none
              | _ => some (.error .invalidState)
          | some _ => some (.error .invalidState)
      | Slot.int _ :: _ :: _ => some (.error .invalidState)
      | Slot.int _ :: [] => some (.error .invalidState)
      | _ => some (.error .invalidState)

/-- C9: counter-evaluation.  Array element loads are bounds-checked and
surface as execution errors (first two conjuncts: index 5 and a negative
index on a one-element array), but array element stores index the
backing vector directly: `iastore` with index 5 or index `-1` on a
one-element array panics (modelled as `none`), aborting the process
instead of returning an execution error.  The last conjunct shows the
in-bounds store working normally. -/
theorem C9_array_bounds_evaluation :
    ialoadS [Arr.intArr [7]] ⟨[], [Slot.int 5, Slot.arrayReference 0], 0, 0⟩ =
        some (.error .invalidState)
    ∧ ialoadS [Arr.intArr [7]] ⟨[], [Slot.int (-1), Slot.arrayReference 0], 0, 0⟩ =
        some (.error .invalidState)
    ∧ iastoreS [Arr.intArr [7]]
        ⟨[], [Slot.int 9, Slot.int 5, Slot.arrayReference 0], 0, 0⟩ = none
    ∧ iastoreS [Arr.intArr [7]]
        ⟨[], [Slot.int 9, Slot.int (-1), Slot.arrayReference 0], 0, 0⟩ = none
    ∧ iastoreS [Arr.intArr [7]]
        ⟨[], [Slot.int 9, Slot.int 0, Slot.arrayReference 0], 0, 0⟩ =
        some (.ok ([Arr.intArr [9]], ⟨[], [], 0, 0⟩, .next 1)) := by
  refine ⟨?_, ?_, ?_, ?_, ?_⟩ <;> decide

/-! ## Class-file decoder (`reader/src/base`)

Byte-level embedding of `ClassFile::from_bytes` and
`parse_constant_pool`.  A reader is a byte list with a cursor position;
`binrw` read failures (end of input) are `ParseErr` values returned to
the caller, while the `unimplemented!` arm for an unknown constant-pool
tag is a Rust panic, modelled as `none`. -/

/-- Byte buffer. -/
abbrev Bytes := List Nat

/-- Decode-level read failures (`binrw::Error`, reduced to its
control-flow content). -/
inductive ParseErr where
  | eof : ParseErr
deriving DecidableEq, Repr

/-- Read one byte. -/
def readU1 (b : Bytes) (pos : Nat) : Except ParseErr (Nat × Nat) :=
  match b.get? pos with
  | none => .error .eof
  | some v => .ok (v, pos + 1)

/-- Rust `read_exact` of `n` bytes. -/
def readExactN (b : Bytes) (pos n : Nat) : Except ParseErr (List Nat × Nat) :=
  if pos + n ≤ b.length then .ok ((b.drop pos).take n, pos + n) else .error .eof

/-- Combine big-endian bytes into a natural number. -/
def beNat (l : List Nat) : Nat :=
  l.foldl (fun a x => a * 256 + x) 0

/-- Read a big-endian `u16`. -/
def readU2 (b : Bytes) (pos : Nat) : Except ParseErr (Nat × Nat) := do
  let (bs, p) ← readExactN b pos 2
  pure (beNat bs, p)

/-- Read a big-endian `u32`. -/
def readU4 (b : Bytes) (pos : Nat) : Except ParseErr (Nat × Nat) := do
  let (bs, p) ← readExactN b pos 4
  pure (beNat bs, p)

/-- Read a big-endian 8-byte value. -/
def readU8 (b : Bytes) (pos : Nat) : Except ParseErr (Nat × Nat) := do
  let (bs, p) ← readExactN b pos 8
  pure (beNat bs, p)

/-- Signed reinterpretation of 32 bits (`i32::from_be_bytes`). -/
def i32OfBits (n : Nat) : Int :=
  if n < 2 ^ 31 then (n : Int) else (n : Int) - 2 ^ 32

/-- Signed reinterpretation of 64 bits. -/
def i64OfBits (n : Nat) : Int :=
  if n < 2 ^ 63 then (n : Int) else (n : Int) - 2 ^ 64

/-- Constant-pool info of the class-file decoder
(`reader/src/base/constant_pool.rs`, `ConstantPoolInfo`); float and
double payloads are kept as raw bit patterns, as the decoder stores
them bit-exactly. -/
inductive CfInfo where
  | utf8 (bytes : List Nat) : CfInfo
  | integer (v : Int) : CfInfo
  | float (bits : Nat) : CfInfo
  | long (v : Int) : CfInfo
  | double (bits : Nat) : CfInfo
  | classInfo (nameIndex : Nat) : CfInfo
  | stringInfo (stringIndex : Nat) : CfInfo
  | fieldRef (classIndex nameAndTypeIndex : Nat) : CfInfo
  | methodRef (classIndex nameAndTypeIndex : Nat) : CfInfo
  | interfaceMethodRef (classIndex nameAndTypeIndex : Nat) : CfInfo
  | nameAndType (nameIndex descriptorIndex : Nat) : CfInfo
deriving DecidableEq, Repr

/-- Constant-pool entry: a real entry or the tombstone after a wide
constant (`ConstantPoolEntry`). -/
inductive CfEntry where
  | entry (info : CfInfo) : CfEntry
  | tombstone : CfEntry
deriving DecidableEq, Repr

/-- Payload parser for one constant-pool tag.  The result records
whether a tombstone must follow (tags 5 and 6).  An unknown tag hits the
`unimplemented!` arm of `parse_constant_pool`: a panic, `none`. -/
def parseInfo (b : Bytes) (pos tag : Nat) :
    Option (Except ParseErr (CfInfo × Bool × Nat)) :=
  match tag with
  | 1 => some (do
      let (len, p1) ← readU2 b pos
      let (bs, p2) ← readExactN b p1 len
      pure (CfInfo.utf8 bs, false, p2))
  | 3 => some (do
      let (v, p1) ← readU4 b pos
      pure (CfInfo.integer (i32OfBits v), false, p1))
  | 4 => some (do
      let (v, p1) ← readU4 b pos
      pure (CfInfo.float v, false, p1))
  | 5 => some (do
      let (v, p1) ← readU8 b pos
      pure (CfInfo.long (i64OfBits v), true, p1))
  | 6 => some (do
      let (v, p1) ← readU8 b pos
      pure (CfInfo.double v, true, p1))
  | 7 => some (do
      let (v, p1) ← readU2 b pos
      pure (CfInfo.classInfo v, false, p1))
  | 8 => some (do
      let (v, p1) ← readU2 b pos
      pure (CfInfo.stringInfo v, false, p1))
  | 9 => some (do
      let (c, p1) ← readU2 b pos
      let (nt, p2) ← readU2 b p1
      pure (CfInfo.fieldRef c nt, false, p2))
  | 10 => some (do
      let (c, p1) ← readU2 b pos
      let (nt, p2) ← readU2 b p1
      pure (CfInfo.methodRef c nt, false, p2))
  | 11 => some (do
      let (c, p1) ← readU2 b pos
      let (nt, p2) ← readU2 b p1
      pure (CfInfo.interfaceMethodRef c nt, false, p2))
  | 12 => some (do
      let (n, p1) ← readU2 b pos
      let (d, p2) ← readU2 b p1
      pure (CfInfo.nameAndType n d, false, p2))
  | _ => none

/-- Loop of `parse_constant_pool` with `rem` the remaining count
(`count - i`): reads a tag byte, parses the payload by tag, appends the
entry and, after a wide constant, a tombstone so raw indices keep
matching the 1-based file numbering.  The structural `fuel` starts equal
to `rem` and can never be exhausted before `rem` reaches zero, because
every iteration consumes at least one remaining slot; the fuel-exhausted
arm is unreachable from `parseCPLoop`. -/
def parseCPGo (b : Bytes) : Nat → Nat → Nat → List CfEntry →
    Option (Except ParseErr (List CfEntry × Nat))
  | 0, rem, pos, acc => if rem = 0 then some (.ok (acc, pos)) else none
  | fuel + 1, rem, pos, acc =>
      if rem = 0 then some (.ok (acc, pos))
      else
        match readU1 b pos with
        | .error e => some (.error e)
        | .ok (tag, pos1) =>
            match parseInfo b pos1 tag with
            | none => none
            | some (.error e) => some (.error e)
            | some (.ok (info, tomb, pos2)) =>
                if tomb then
                  parseCPGo b fuel (rem - 2) pos2
                    (acc ++ [CfEntry.entry info, CfEntry.tombstone])
                else
                  parseCPGo b fuel (rem - 1) pos2 (acc ++ [CfEntry.entry info])

/-- Entry point of `parse_constant_pool`. -/
def parseCPLoop (b : Bytes) (rem pos : Nat) (acc : List CfEntry) :
    Option (Except ParseErr (List CfEntry × Nat)) :=
  parseCPGo b rem rem pos acc

/-- Attribute structure (`reader/src/base/attribute_info.rs`,
`AttributeInfo`): name index, declared length, raw payload. -/
structure CfAttr where
  nameIndex : Nat
  info : List Nat
deriving DecidableEq, Repr

/-- Read one `AttributeInfo`. -/
def parseAttr (b : Bytes) (pos : Nat) : Except ParseErr (CfAttr × Nat) := do
  let (name, p1) ← readU2 b pos
  let (len, p2) ← readU4 b p1
  let (bs, p3) ← readExactN b p2 len
  pure (⟨name, bs⟩, p3)

/-- Read a counted list of attributes. -/
def parseAttrs (b : Bytes) : Nat → Nat → Except ParseErr (List CfAttr × Nat)
  | 0, pos => .ok ([], pos)
  | n + 1, pos => do
      let (a, p1) ← parseAttr b pos
      let (rest, p2) ← parseAttrs b n p1
      pure (a :: rest, p2)

/-- Field or method structure (`FieldInfo` and `MethodInfo` share the
same binary layout). -/
structure CfMember where
  accessFlags : Nat
  nameIndex : Nat
  descriptorIndex : Nat
  attributes : List CfAttr
deriving DecidableEq, Repr

/-- Read one `FieldInfo`/`MethodInfo`. -/
def parseMember (b : Bytes) (pos : Nat) : Except ParseErr (CfMember × Nat) := do
  let (access, p1) ← readU2 b pos
  let (name, p2) ← readU2 b p1
  let (desc, p3) ← readU2 b p2
  let (attrCount, p4) ← readU2 b p3
  let (attrs, p5) ← parseAttrs b attrCount p4
  pure (⟨access, name, desc, attrs⟩, p5)

/-- Read a counted list of members. -/
def parseMembers (b : Bytes) : Nat → Nat → Except ParseErr (List CfMember × Nat)
  | 0, pos => .ok ([], pos)
  | n + 1, pos => do
      let (m, p1) ← parseMember b pos
      let (rest, p2) ← parseMembers b n p1
      pure (m :: rest, p2)

/-- Read a counted list of `u16` indices (the interface table). -/
def parseU2List (b : Bytes) : Nat → Nat → Except ParseErr (List Nat × Nat)
  | 0, pos => .ok ([], pos)
  | n + 1, pos => do
      let (v, p1) ← readU2 b pos
      let (rest, p2) ← parseU2List b n p1
      pure (v :: rest, p2)

/-- Decoded class file (`reader/src/base/classfile.rs`, `ClassFile`). -/
structure CfClassFile where
  magic : Nat
  minorVersion : Nat
  majorVersion : Nat
  constantPool : List CfEntry
  accessFlags : Nat
  thisClass : Nat
  superClass : Nat
  interfaces : List Nat
  fields : List CfMember
  methods : List CfMember
  attributes : List CfAttr
deriving DecidableEq, Repr

/-- Wrapping `u16` subtraction of one, for the
`constant_pool_count - 1` argument computed in release mode. -/
def u2sub1 (c : Nat) : Nat :=
  (c + 65535) % 65536

/-- Model of `ClassFile::from_bytes`: the derived reader consumes the
fields in declaration order.  The magic number is read and stored but
never validated. -/
def classFileFromBytes (b : Bytes) : Option (Except ParseErr CfClassFile) :=
  match (do
    let (magic, p1) ← readU4 b 0
    let (minor, p2) ← readU2 b p1
    let (major, p3) ← readU2 b p2
    let (cpCount, p4) ← readU2 b p3
    pure (magic, minor, major, cpCount, p4) :
      Except ParseErr (Nat × Nat × Nat × Nat × Nat)) with
  | .error e => some (.error e)
  | .ok (magic, minor, major, cpCount, p4) =>
      match parseCPLoop b (u2sub1 cpCount) p4 [] with
      | none => none
      | some (.error e) => some (.error e)
      | some (.ok (pool, p5)) =>
          match (do
            let (access, p6) ← readU2 b p5
            let (thisC, p7) ← readU2 b p6
            let (superC, p8) ← readU2 b p7
            let (ifCount, p9) ← readU2 b p8
            let (ifs, p10) ← parseU2List b ifCount p9
            let (fieldCount, p11) ← readU2 b p10
            let (fields, p12) ← parseMembers b fieldCount p11
            let (methodCount, p13) ← readU2 b p12
            let (methods, p14) ← parseMembers b methodCount p13
            let (attrCount, p15) ← readU2 b p14
            let (attrs, _) ← parseAttrs b attrCount p15
            pure (CfClassFile.mk magic minor major pool access thisC superC ifs fields
              methods attrs) :
              Except ParseErr CfClassFile) with
          | .error e => some (.error e)
          | .ok cf => some (.ok cf)

/-- C7: counter-evaluation.  A constant pool whose first entry carries
the unknown tag 2 makes the decoder panic through `unimplemented!`
(modelled as `none`) instead of returning a decode error, while a known
tag decodes normally; and a buffer whose first four bytes are 1 instead
of 0xCAFEBABE decodes successfully, because the magic number is stored
without validation. -/
theorem C7_decoder_evaluation :
    parseCPLoop [2, 0, 0] 1 0 [] = none
    ∧ parseCPLoop [7, 0, 5] 1 0 [] = some (.ok ([CfEntry.entry (CfInfo.classInfo 5)], 3))
    ∧ classFileFromBytes
        [0, 0, 0, 1, 0, 0, 0, 0, 0, 1, 0, 0, 0, 0, 0, 0, 0, 0, 0, 0, 0, 0, 0, 0] =
      some (.ok ⟨1, 0, 0, [], 0, 0, 0, [], [], [], []⟩) := by
  refine ⟨?_, ?_, ?_⟩ <;> decide

/-! ## Class manager (`vm/src/class_manager.rs`)

The work-list loop of `get_or_resolve_class` is embedded over a state
keyed by class names: the model keeps the `name_map` composed with
`classes_by_id` (class ids themselves are bookkeeping the loop never
branches on).  Class files are kept in the decoded projection the loop
consumes: name, super name, interface names and the class names
referenced from constant-pool `ClassInfo` entries.  The classes used by
the claims carry no methods, so the `<clinit>` execution of
`execute_class_init` finds no initializer and only flips the
initialization flag, which no examined behavior reads; array-descriptor
constant-pool references (which the source routes through the field
descriptor parser) are not exercised by the claims and are skipped like
the source skips unparsable ones. -/

/-- Projection of a decoded class file used by the manager. -/
structure ShapeCF where
  name : String
  superName : Option String
  interfaces : List String
  cpClassNames : List String
deriving DecidableEq, Repr

/-- Per-name class state (`LoadedClass`): `Resolved` with its computed
dependency list, `Loading`, or fully `Loaded`. -/
inductive CMClass where
  | resolvedC (deps : List (String × Bool)) (cf : ShapeCF) : CMClass
  | loadingC (cf : ShapeCF) : CMClass
  | loadedC : CMClass
deriving DecidableEq, Repr

/-- Errors of class loading (`ClassLoadingError` and `DerivingError`,
payloads elided). -/
inductive CMErr where
  | notFound : CMErr
  | circularDependency : CMErr
  | superClassNotLoaded : CMErr
  | superInterfaceNotLoaded : CMErr
  | classLoadingFailure : CMErr
  | initializerError : CMErr
deriving DecidableEq, Repr

/-- Class table keyed by binary name (the `name_map` view). -/
structure CMState where
  classes : List (String × CMClass)
deriving DecidableEq, Repr

/-- Class-path loader contract: `read_class` composed with the decoder. -/
abbrev Loader := String → Option ShapeCF

/-- Lookup through the name map (`get_class_by_name`). -/
def lookupC (st : CMState) (n : String) : Option CMClass :=
  (st.classes.find? (fun p => p.1 == n)).map (fun p => p.2)

/-- Insertion overwrites the previous binding for the name. -/
def insertC (st : CMState) (n : String) (c : CMClass) : CMState :=
  ⟨(n, c) :: st.classes⟩

/-- Test for the `Loaded` state. -/
def isLoadedS (c : Option CMClass) : Bool :=
  match c with
  | some CMClass.loadedC => true
  | _ => false

/-- Optional-dependency scan of `resolve_class` over the constant-pool
class references: empty names, array descriptors, the class itself,
already-known names and duplicates are skipped; the rest join the
dependency list as optional. -/
def addCpDeps (st : CMState) (selfName : String) :
    List (String × Bool) → List String → List (String × Bool)
  | deps, [] => deps
  | deps, n :: rest =>
      if n.length = 0 then addCpDeps st selfName deps rest
      else if n.startsWith "[" then addCpDeps st selfName deps rest
      else if n = selfName then addCpDeps st selfName deps rest
      else if (lookupC st n).isSome then addCpDeps st selfName deps rest
      else if deps.any (fun d => d.1 = n) then addCpDeps st selfName deps rest
      else addCpDeps st selfName (deps ++ [(n, false)]) rest

/-- Model of `resolve_class`: required dependencies are the direct super
class and the direct interfaces; a required dependency on the class
itself is the only circularity detected; the class enters the table in
state `Resolved`. -/
def resolveClass (st : CMState) (cf : ShapeCF) : Except CMErr CMState :=
  let deps0 :=
    (match cf.superName with
     | some s => [(s, true)]
     | none => []) ++ cf.interfaces.map (fun i => (i, true))
  if (cf.name, true) ∈ deps0 then .error .circularDependency
  else
    let deps := addCpDeps st cf.name deps0 cf.cpClassNames
    .ok (insertC st cf.name (CMClass.resolvedC deps cf))

/-- Dependency pass of the `Resolved` arm: each unresolved dependency is
loaded from the class path and resolved, and the required ones are
pushed above the current name (the last one processed ends topmost). -/
def processDeps (loader : Loader) :
    CMState → List String → List (String × Bool) → Except CMErr (CMState × List String)
  | st, stack, [] => .ok (st, stack)
  | st, stack, (dep, required) :: more =>
      match loader dep with
      | none => .error .notFound
      | some cf =>
          match resolveClass st cf with
          | .error e => .error e
          | .ok st2 =>
              processDeps loader st2 (if required then dep :: stack else stack) more

/-- Work-list loop of `get_or_resolve_class`, with a fuel bound:
exhausted fuel (`none`) means the loop is still running after that many
iterations.  One iteration pops a name and acts by its state: an
unknown name is loaded and resolved and pushed back; a `Resolved` name
is pushed back, its not-yet-loaded dependencies are loaded and resolved
(required ones pushed above it) and the runtime structures are built,
moving it to `Loading`; a `Loading` name requires its super class and
interfaces to be `Loaded` and becomes `Loaded`; a `Loaded` name is
dropped. -/
def gorLoop (loader : Loader) : Nat → CMState → List String →
    Option (Except CMErr CMState)
  | 0, _, _ => none
  | fuel + 1, st, stack =>
      match stack with
      | [] => some (.ok st)
      | n :: rest =>
          match lookupC st n with
          | none =>
              match loader n with
              | none => some (.error .notFound)
              | some cf =>
                  match resolveClass st cf with
                  | .error e => some (.error e)
                  | .ok st2 => gorLoop loader fuel st2 (n :: rest)
          | some CMClass.loadedC => gorLoop loader fuel st rest
          | some (CMClass.resolvedC deps cf) =>
              let unresolved := deps.filter (fun d => !isLoadedS (lookupC st d.1))
              match processDeps loader st (n :: rest) unresolved with
              | .error e => some (.error e)
              | .ok (st2, stack2) =>
                  if cf.cpClassNames.all (fun m => (lookupC st2 m).isSome) then
                    gorLoop loader fuel (insertC st2 n (CMClass.loadingC cf)) stack2
                  else some (.error .classLoadingFailure)
          | some (CMClass.loadingC cf) =>
              let superOk :=
                match cf.superName with
                | none => true
                | some s => isLoadedS (lookupC st s)
              if !superOk then some (.error .superClassNotLoaded)
              else if !(cf.interfaces.all (fun i => isLoadedS (lookupC st i))) then
                some (.error .superInterfaceNotLoaded)
              else gorLoop loader fuel (insertC st n CMClass.loadedC) rest

/-- Two-class required cycle: `A extends B` and `B extends A`. -/
def loaderAB : Loader := fun n =>
  if n = "A" then some ⟨"A", some "B", [], []⟩
  else if n = "B" then some ⟨"B", some "A", [], []⟩
  else none

/-- Class file shape of `A` (super `B`) and `B` (super `A`). -/
def shapeAB (n : String) : ShapeCF :=
  if n = "A" then ⟨"A", some "B", [], []⟩ else ⟨"B", some "A", [], []⟩

/-- The other member of the two-class cycle. -/
def otherAB (n : String) : String :=
  if n = "A" then "B" else "A"

/-- Dependencies `resolve_class` computes for a member of the cycle. -/
def depsAB (n : String) : List (String × Bool) :=
  [(otherAB n, true)]

/-- States a cycle member can occupy while the loop spins: absent,
resolved with its one required dependency, or loading. -/
def okStateAB (st : CMState) (m : String) : Prop :=
  lookupC st m = none
  ∨ lookupC st m = some (CMClass.resolvedC (depsAB m) (shapeAB m))
  ∨ lookupC st m = some (CMClass.loadingC (shapeAB m))

/-- Loop invariant for the two-class cycle: the work list is a nonempty
list over `A` and `B`, its top is absent or resolved, and neither class
ever reaches the `Loaded` state. -/
def cycInv (st : CMState) (stack : List String) : Prop :=
  (∃ n rest, stack = n :: rest
    ∧ (n = "A" ∨ n = "B")
    ∧ (∀ m ∈ stack, m = "A" ∨ m = "B")
    ∧ (lookupC st n = none
        ∨ lookupC st n = some (CMClass.resolvedC (depsAB n) (shapeAB n))))
  ∧ okStateAB st "A" ∧ okStateAB st "B"

theorem lookupC_insert (st : CMState) (n m : String) (c : CMClass) :
    lookupC (insertC st n c) m = if m = n then some c else lookupC st m := by
  by_cases h : m = n
  · simp [lookupC, insertC, List.find?, h]
  · have h2 : (n == m) = false := by
      simp [BEq.beq]
      exact fun he => h he.symm
    simp [lookupC, insertC, List.find?, h2, h]

theorem okStateAB_insert (st : CMState) (m n : String) (c : CMClass)
    (hm : okStateAB st m)
    (hc : c = CMClass.resolvedC (depsAB n) (shapeAB n) ∨ c = CMClass.loadingC (shapeAB n)) :
    okStateAB (insertC st n c) m := by
  unfold okStateAB at hm ⊢
  rw [lookupC_insert]
  by_cases h : m = n
  · subst h
    rw [if_pos rfl]
    rcases hc with hc | hc <;> subst hc
    · right; left; rfl
    · right; right; rfl
  · rw [if_neg h]
    exact hm

theorem resolveClass_shapeAB (st : CMState) (n : String) (hn : n = "A" ∨ n = "B") :
    resolveClass st (shapeAB n) =
      .ok (insertC st n (CMClass.resolvedC (depsAB n) (shapeAB n))) := by
  rcases hn with h | h <;> subst h <;> rfl

theorem loaderAB_shape (n : String) (hn : n = "A" ∨ n = "B") :
    loaderAB n = some (shapeAB n) := by
  rcases hn with h | h <;> subst h <;> rfl

theorem otherAB_mem (n : String) (hn : n = "A" ∨ n = "B") :
    otherAB n = "A" ∨ otherAB n = "B" := by
  rcases hn with h | h <;> subst h <;> simp [otherAB]

theorem otherAB_ne (n : String) (hn : n = "A" ∨ n = "B") : otherAB n ≠ n := by
  rcases hn with h | h <;> subst h <;> simp [otherAB]

theorem gorLoop_cycle_spins :
    ∀ fuel st stack, cycInv st stack → gorLoop loaderAB fuel st stack = none := by
  intro fuel
  induction fuel with
  | zero => intro st stack _; rfl
  | succ fuel ih =>
      intro st stack hinv
      obtain ⟨⟨n, rest, hstack, hn, hmem, htop⟩, hA, hB⟩ := hinv
      subst hstack
      have hloader := loaderAB_shape n hn
      have hresolve := resolveClass_shapeAB st n hn
      rcases htop with htop | htop
      · simp only [gorLoop, htop, hloader, hresolve]
        apply ih
        refine ⟨⟨n, rest, rfl, hn, hmem, ?_⟩, ?_, ?_⟩
        · right
          rw [lookupC_insert, if_pos rfl]
        · exact okStateAB_insert st "A" n _ hA (Or.inl rfl)
        · exact okStateAB_insert st "B" n _ hB (Or.inl rfl)
      · have hoth : okStateAB st (otherAB n) := by
          rcases hn with h | h <;> subst h
          · simpa [otherAB] using hB
          · simpa [otherAB] using hA
        have hnotloaded : isLoadedS (lookupC st (otherAB n)) = false := by
          rcases hoth with h | h | h <;> simp [isLoadedS, h]
        have hloader2 := loaderAB_shape (otherAB n) (otherAB_mem n hn)
        have hresolve2 := resolveClass_shapeAB st (otherAB n) (otherAB_mem n hn)
        have hcp : (shapeAB n).cpClassNames = [] := by
          rcases hn with h | h <;> subst h <;> rfl
        simp only [gorLoop, htop, depsAB, List.filter, hnotloaded, Bool.not_false,
          processDeps, hloader2, hresolve2, hcp, List.all_nil, if_true]
        apply ih
        have hoth_ne := otherAB_ne n hn
        refine ⟨⟨otherAB n, n :: rest, rfl, otherAB_mem n hn, ?_, ?_⟩, ?_, ?_⟩
        · intro m hm
          rcases List.mem_cons.mp hm with h | h
          · subst h; exact otherAB_mem n hn
          · exact hmem m h
        · right
          rw [lookupC_insert, if_neg hoth_ne, lookupC_insert, if_pos rfl]
          rfl
        · refine okStateAB_insert _ "A" n _ ?_ (Or.inr rfl)
          exact okStateAB_insert st "A" (otherAB n) _ hA (Or.inl rfl)
        · refine okStateAB_insert _ "B" n _ ?_ (Or.inr rfl)
          exact okStateAB_insert st "B" (otherAB n) _ hB (Or.inl rfl)

/-- Single-class self cycle: `C extends C`. -/
def loaderSelf : Loader := fun n =>
  if n = "C" then some ⟨"C", some "C", [], []⟩ else none

/-- C8: the claim fails on cycles of length two.  For the class files
`A extends B` and `B extends A`, the work-list loop of
`get_or_resolve_class` runs forever (for every fuel bound it is still
running), re-resolving the two classes instead of reporting a
circular-dependency error; only the direct self cycle `C extends C` is
detected (second conjunct). -/
theorem C8_circular_dependency_evaluation (fuel : Nat) :
    gorLoop loaderAB fuel ⟨[]⟩ ["A"] = none
    ∧ gorLoop loaderSelf (fuel + 1) ⟨[]⟩ ["C"] = some (.error .circularDependency) := by
  constructor
  · apply gorLoop_cycle_spins
    refine ⟨⟨"A", [], rfl, Or.inl rfl, ?_, Or.inl rfl⟩, Or.inl rfl, Or.inl rfl⟩
    intro m hm
    left
    simpa using hm
  · rfl

/-! ## Runtime constant pool (`vm/src/constant_pool.rs`)

`ConstantPool::from_classfile` walks the raw class-file pool in order.
Every entry kind with a runtime representation goes through `append`,
which pushes the new dense position onto the index map; a tombstone or a
kind without runtime representation (in the reader of this tree: Utf8
and NameAndType entries) pushes the dense position 0 instead.  The
class-manager-dependent parts are parameterized: `idOfClass` resolves a
binary name to a class id, `stringObj` interns a string object on the
heap (`None` is the creation failure surfaced as an error), and the two
descriptor predicates stand for the field/method descriptor parsers.
CESU-8 decoding is abstracted as the identity on byte lists. -/

/-- Runtime constant-pool entry (`ConstantPoolEntry`); names and
descriptors are carried as raw byte lists, heap handles as indices. -/
inductive RtEntry where
  | integerConstant (v : Int) : RtEntry
  | floatConstant (bits : Nat) : RtEntry
  | longConstant (v : Int) : RtEntry
  | doubleConstant (bits : Nat) : RtEntry
  | stringReference (obj : Nat) : RtEntry
  | fieldReference (name desc : List Nat) (implementor : Nat) : RtEntry
  | methodReference (name desc : List Nat) (implementor : Nat) : RtEntry
  | interfaceMethodReference (name desc : List Nat) (implementor : Nat) : RtEntry
  | classReference (classId : Nat) : RtEntry
  | arrayReference (desc : List Nat) : RtEntry
deriving DecidableEq, Repr

/-- Runtime constant pool: dense entries plus the raw-index map, whose
position 0 is the unused placeholder pushed by `ConstantPool::new`. -/
structure RtPool where
  mappings : List Nat
  entries : List RtEntry
deriving DecidableEq, Repr

/-- Method `ConstantPool::append`: push the entry and record its dense
position for the next raw index. -/
def RtPool.append (cp : RtPool) (e : RtEntry) : RtPool :=
  ⟨cp.mappings ++ [cp.entries.length], cp.entries ++ [e]⟩

/-- Method `ConstantPool::get`: reject index 0 and indices at or past
the map length, then chase the index map into the dense entries. -/
def RtPool.get (cp : RtPool) (index : Nat) : Option RtEntry :=
  if index = 0 || cp.mappings.length ≤ index then none
  else
    match cp.mappings.get? index with
    | none => none
    | some m => cp.entries.get? m

/-- Errors of runtime pool construction (`ConstantPoolError`, payloads
elided). -/
inductive CpError where
  | invalidUtf8StringReference : CpError
  | invalidFieldReference : CpError
  | invalidDescriptor : CpError
  | invalidClassNameReference : CpError
  | stringObjectCreationFailure : CpError
  | classLoadingFailure : CpError
deriving DecidableEq, Repr

/-- Reader-side `ConstantPool::get`: index 0 and indices at or past the
entry count yield `None`, otherwise the 1-based index is chased. -/
def cfGet (pool : List CfEntry) (index : Nat) : Option CfEntry :=
  if index = 0 || pool.length ≤ index then none
  else pool.get? (index - 1)

/-- Reader-side `get_info`: only real entries. -/
def cfGetInfo (pool : List CfEntry) (index : Nat) : Option CfInfo :=
  match cfGet pool index with
  | some (CfEntry.entry info) => some info
  | _ => none

/-- Reader-side `get_utf8_string` (CESU-8 decode abstracted). -/
def cfUtf8 (pool : List CfEntry) (index : Nat) : Option (List Nat) :=
  match cfGetInfo pool index with
  | some (CfInfo.utf8 bs) => some bs
  | _ => none

/-- Reader-side `get_class_name`. -/
def cfClassName (pool : List CfEntry) (index : Nat) : Option (List Nat) :=
  match cfGetInfo pool index with
  | some (CfInfo.classInfo ni) => cfUtf8 pool ni
  | _ => none

/-- Reader-side `get_name_and_type`. -/
def cfNameAndType (pool : List CfEntry) (index : Nat) :
    Option (List Nat × List Nat) :=
  match cfGetInfo pool index with
  | some (CfInfo.nameAndType ni di) =>
      match cfUtf8 pool ni, cfUtf8 pool di with
      | some n, some d => some (n, d)
      | _, _ => none
  | _ => none

/-- Class-manager-dependent environment of `from_classfile`. -/
structure CpEnv where
  idOfClass : List Nat → Option Nat
  stringObj : List Nat → Option Nat
  fieldDescOk : List Nat → Bool
  methodDescOk : List Nat → Bool

/-- Action one class-file entry induces on the pool under construction:
`none` for the tombstone and no-runtime-representation arms (the source
pushes dense position 0), `some` for the appending arms, `error` when a
referenced name, descriptor or class cannot be resolved. -/
def cpStepAction (env : CpEnv) (cfPool : List CfEntry) (e : CfEntry) :
    Except CpError (Option RtEntry) :=
  match e with
  | .tombstone => .ok none
  | .entry info =>
      match info with
      | .integer v => .ok (some (.integerConstant v))
      | .float bits => .ok (some (.floatConstant bits))
      | .long v => .ok (some (.longConstant v))
      | .double bits => .ok (some (.doubleConstant bits))
      | .stringInfo si =>
          match cfUtf8 cfPool si with
          | none => .error .invalidUtf8StringReference
          | some s =>
              match env.stringObj s with
              | none => .error .stringObjectCreationFailure
              | some h => .ok (some (.stringReference h))
      | .fieldRef ci nti =>
          match cfClassName cfPool ci with
          | none => .error .invalidClassNameReference
          | some cn =>
              match cfNameAndType cfPool nti with
              | none => .error .invalidFieldReference
              | some nd =>
                  match env.idOfClass cn with
                  | none => .error .classLoadingFailure
                  | some impl =>
                      if env.fieldDescOk nd.2 then
                        .ok (some (.fieldReference nd.1 nd.2 impl))
                      else .error .invalidDescriptor
      | .methodRef ci nti =>
          match cfClassName cfPool ci with
          | none => .error .invalidClassNameReference
          | some cn =>
              match cfNameAndType cfPool nti with
              | none => .error .invalidFieldReference
              | some nd =>
                  match env.idOfClass cn with
                  | none => .error .classLoadingFailure
                  | some impl =>
                      if env.methodDescOk nd.2 then
                        .ok (some (.methodReference nd.1 nd.2 impl))
                      else .error .invalidDescriptor
      | .interfaceMethodRef ci nti =>
          match cfClassName cfPool ci with
          | none => .error .invalidClassNameReference
          | some cn =>
              match cfNameAndType cfPool nti with
              | none => .error .invalidFieldReference
              | some nd =>
                  match env.idOfClass cn with
                  | none => .error .classLoadingFailure
                  | some impl =>
                      if env.methodDescOk nd.2 then
                        .ok (some (.interfaceMethodReference nd.1 nd.2 impl))
                      else .error .invalidDescriptor
      | .classInfo ni =>
          match cfUtf8 cfPool ni with
          | none => .error .invalidClassNameReference
          | some cn =>
              if cn.head? = some 91 then
                if env.fieldDescOk cn then .ok (some (.arrayReference cn))
                else .error .invalidDescriptor
              else
                match env.idOfClass cn with
                | none => .error .classLoadingFailure
                | some cid => .ok (some (.classReference cid))
      | .utf8 _ => .ok none
      | .nameAndType _ _ => .ok none

/-- One iteration of the `from_classfile` loop: append the produced
runtime entry, or record dense position 0 for the raw index. -/
def cpStep (env : CpEnv) (cfPool : List CfEntry) (cp : RtPool) (e : CfEntry) :
    Except CpError RtPool :=
  match cpStepAction env cfPool e with
  | .error er => .error er
  | .ok none => .ok ⟨cp.mappings ++ [0], cp.entries⟩
  | .ok (some x) => .ok (cp.append x)

/-- Loop of `from_classfile` over the class-file entries. -/
def fromClassfileGo (env : CpEnv) (cfPool : List CfEntry) :
    List CfEntry → RtPool → Except CpError RtPool
  | [], cp => .ok cp
  | e :: rest, cp =>
      match cpStep env cfPool cp e with
      | .error er => .error er
      | .ok cp2 => fromClassfileGo env cfPool rest cp2

/-- Model of `ConstantPool::from_classfile`, starting from
`ConstantPool::new(vec![])` whose index map is the placeholder `[0]`. -/
def fromClassfile (env : CpEnv) (cfPool : List CfEntry) : Except CpError RtPool :=
  fromClassfileGo env cfPool cfPool ⟨[0], []⟩

/-- Class-file entry kinds with no runtime representation: the
tombstone slot of a wide constant, Utf8 and NameAndType entries. -/
def noRuntimeRepr : CfEntry → Bool
  | .tombstone => true
  | .entry (.utf8 _) => true
  | .entry (.nameAndType _ _) => true
  | _ => false

theorem cpStep_shape (env : CpEnv) (cfPool : List CfEntry) (cp : RtPool) (e : CfEntry)
    (cp2 : RtPool) (h : cpStep env cfPool cp e = .ok cp2) :
    (cp2.entries = cp.entries ∧ cp2.mappings = cp.mappings ++ [0])
    ∨ (∃ x, cp2.entries = cp.entries ++ [x]
        ∧ cp2.mappings = cp.mappings ++ [cp.entries.length]) := by
  unfold cpStep at h
  rcases ha : cpStepAction env cfPool e with er | oe
  · rw [ha] at h; cases h
  · rw [ha] at h
    cases oe with
    | none =>
        left
        cases h
        exact ⟨rfl, rfl⟩
    | some x =>
        right
        cases h
        exact ⟨x, rfl, rfl⟩

theorem cpStepAction_noRepr (env : CpEnv) (cfPool : List CfEntry) (e : CfEntry)
    (h : noRuntimeRepr e = true) : cpStepAction env cfPool e = .ok none := by
  cases e with
  | tombstone => rfl
  | entry info => cases info <;> simp [noRuntimeRepr] at h <;> rfl

theorem cpStep_noRepr (env : CpEnv) (cfPool : List CfEntry) (cp : RtPool) (e : CfEntry)
    (h : noRuntimeRepr e = true) :
    cpStep env cfPool cp e = .ok ⟨cp.mappings ++ [0], cp.entries⟩ := by
  unfold cpStep
  rw [cpStepAction_noRepr env cfPool e h]

theorem fromClassfileGo_mappings (env : CpEnv) (cfPool : List CfEntry) :
    ∀ (l : List CfEntry) (cp cp2 : RtPool),
      fromClassfileGo env cfPool l cp = .ok cp2 →
      ∃ msuffix : List Nat,
        cp2.mappings = cp.mappings ++ msuffix
        ∧ msuffix.length = l.length
        ∧ (∃ esuffix, cp2.entries = cp.entries ++ esuffix)
        ∧ ∀ i e, l.get? i = some e → noRuntimeRepr e = true → msuffix.get? i = some 0 := by
  intro l
  induction l with
  | nil =>
      intro cp cp2 h
      cases h
      exact ⟨[], by simp, rfl, ⟨[], by simp⟩, by intro i e hi _; cases i <;> cases hi⟩
  | cons e rest ih =>
      intro cp cp2 h
      unfold fromClassfileGo at h
      rcases hs : cpStep env cfPool cp e with er | cp1
      · rw [hs] at h; cases h
      · rw [hs] at h
        rcases ih cp1 cp2 h with ⟨msuffix, hmap, hlen, ⟨esuffix, hent⟩, hzero⟩
        rcases cpStep_shape env cfPool cp e cp1 hs with ⟨he1, hm1⟩ | ⟨x, he1, hm1⟩
        · refine ⟨0 :: msuffix, ?_, by simpa using hlen, ⟨esuffix, by rw [hent, he1]⟩, ?_⟩
          · rw [hmap, hm1]
            simp
          · intro i e2 hi hrep
            cases i with
            | zero => rfl
            | succ i =>
                apply hzero i e2 _ hrep
                simpa using hi
        · refine ⟨cp.entries.length :: msuffix, ?_, by simpa using hlen,
            ⟨x :: esuffix, by rw [hent, he1]; simp⟩, ?_⟩
          · rw [hmap, hm1]
            simp
          · intro i e2 hi hrep
            cases i with
            | zero =>
                have he : e = e2 := by simpa using hi
                subst he
                have := cpStepAction_noRepr env cfPool e hrep
                unfold cpStep at hs
                rw [this] at hs
                cases hs
                simp at he1
            | succ i =>
                apply hzero i e2 _ hrep
                simpa using hi

/-- C10: in the runtime pool built by `from_classfile`, every raw index
occupied by the tombstone slot of a wide constant or by an entry kind
with no runtime representation is recorded in the index map as dense
position 0, and `get` on such a raw index therefore returns the first
runtime entry of the pool (and `None` only when the pool has no entries
at all). -/
theorem C10_index_map_zero
    (env : CpEnv) (cfPool : List CfEntry) (cp : RtPool) (i : Nat) (e : CfEntry)
    (hok : fromClassfile env cfPool = .ok cp)
    (hget : cfPool.get? i = some e)
    (hnr : noRuntimeRepr e = true) :
    cp.mappings.get? (i + 1) = some 0 ∧ cp.get (i + 1) = cp.entries.get? 0 := by
  rcases fromClassfileGo_mappings env cfPool cfPool ⟨[0], []⟩ cp hok with
    ⟨msuffix, hmap, hlen, _, hzero⟩
  have hi : i < cfPool.length := by
    by_contra hcon
    rw [List.get?_eq_none.mpr (by omega)] at hget
    cases hget
  have hm0 : msuffix.get? i = some 0 := hzero i e hget hnr
  have hmapi : cp.mappings.get? (i + 1) = some 0 := by
    rw [hmap]
    rw [List.get?_eq_getElem?, List.getElem?_append_right (by simp)]
    rw [List.get?_eq_getElem?] at hm0
    simpa using hm0
  refine ⟨hmapi, ?_⟩
  unfold RtPool.get
  have hilen : i + 1 < cp.mappings.length := by
    rw [hmap]
    simp [hlen]
    omega
  rw [if_neg (by simp; omega)]
  rw [hmapi]

/-- Closed instance of the C10 theorem: in a pool holding an integer
constant followed by a Utf8 entry, the raw index 2 (the Utf8 entry) maps
to dense position 0 and `get 2` returns the integer constant. -/
theorem C10_index_map_zero_witness :
    (fromClassfile ⟨fun _ => none, fun _ => none, fun _ => false, fun _ => false⟩
        [CfEntry.entry (CfInfo.integer 7), CfEntry.entry (CfInfo.utf8 [65])] =
      .ok ⟨[0, 0, 0], [RtEntry.integerConstant 7]⟩)
    ∧ (⟨[0, 0, 0], [RtEntry.integerConstant 7]⟩ : RtPool).mappings.get? 2 = some 0
    ∧ (⟨[0, 0, 0], [RtEntry.integerConstant 7]⟩ : RtPool).get 2 =
        some (RtEntry.integerConstant 7) := by
  have h := C10_index_map_zero
    ⟨fun _ => none, fun _ => none, fun _ => false, fun _ => false⟩
    [CfEntry.entry (CfInfo.integer 7), CfEntry.entry (CfInfo.utf8 [65])]
    ⟨[0, 0, 0], [RtEntry.integerConstant 7]⟩ 1 (CfEntry.entry (CfInfo.utf8 [65]))
    (by decide) (by decide) (by decide)
  exact ⟨by decide, h.1, by rw [h.2]; rfl⟩

end BlazeVM
